import Mathlib

/-!
# Verification of the fabric-telemetry pipeline

Shallow embedding of the core logic of the `fabric-telemetry` repository:

* `data_server/simulator.py` — stochastic snapshot generation,
* `data_server/app.py` — CSV serialization and the conditional `/counters` read,
* `metrics_server/poller.py` — the reconciliation cycle and CSV parsing,
* `metrics_server/stats.py` — rolling latency percentiles,
* `metrics_server/store.py` — the single-slot snapshot store.

Python floats are modelled as rationals (every value stored by the
simulator is an exact multiple of 1/100, and `str`/`float` round-trip
exactly on such values).  Python dicts are modelled as association lists
with in-place update (`dictInsert`), preserving insertion order exactly
as CPython does.  Randomness is modelled by an oracle supplying every
draw a generation cycle can make.
-/

namespace Fabric

/-! ### Definitions: the shallow embedding of the program -/

/-- Assignment `d[k] = v` into a Python dict: replaces the value of an
existing key in place, otherwise appends the binding at the end. -/
def dictInsert {α : Type} (d : List (String × α)) (k : String) (v : α) :
    List (String × α) :=
  match d with
  | [] => [(k, v)]
  | (k', v') :: t => if k' = k then (k, v) :: t else (k', v') :: dictInsert t k v

/-- Python `d.get(k)` / `d[k]` on the association-list dict model. -/
def dictGet {α : Type} (d : List (String × α)) (k : String) : Option α :=
  match d with
  | [] => none
  | (k', v) :: t => if k' = k then some v else dictGet t k

/-- The keys of a dict, in insertion order. -/
def dictKeys {α : Type} (d : List (String × α)) : List String :=
  d.map Prod.fst

/-- Folding a list of items into a dict, one `dictInsert` per item:
the embedding of a Python loop `for a in l: d[key a] = val a`. -/
def dictOf {α β : Type} (key : α → String) (val : α → β) (l : List α)
    (init : List (String × β)) : List (String × β) :=
  l.foldl (fun d a => dictInsert d (key a) (val a)) init

/-- Decimal digit characters of a natural number, most significant first:
the digits of Python `str(n)`. -/
def natChars (n : Nat) : List Char :=
  if h : n < 10 then [Nat.digitChar n]
  else natChars (n / 10) ++ [Nat.digitChar (n % 10)]
termination_by n
decreasing_by exact Nat.div_lt_self (by omega) (by omega)

/-- Python `str(n)` for a natural number. -/
def natRepr (n : Nat) : String :=
  String.mk (natChars n)

/-- Numeric value of a decimal digit character, `none` on non-digits. -/
def digitVal (c : Char) : Option Nat :=
  if '0' ≤ c ∧ c ≤ '9' then some (c.toNat - '0'.toNat) else none

/-- Accumulating left-to-right decimal digit parse; fails on any non-digit. -/
def parseDigitsAux (acc : Nat) : List Char → Option Nat
  | [] => some acc
  | c :: cs =>
    match digitVal c with
    | some d => parseDigitsAux (acc * 10 + d) cs
    | none => none

/-- Parse of a non-empty, all-digit character list to a natural number. -/
def decDigits (cs : List Char) : Option Nat :=
  if cs.isEmpty then none else parseDigitsAux 0 cs

/-- Python `int(s)` on plain decimal integer literals. -/
def parseIntStr (s : String) : Option Int :=
  match s.data with
  | [] => none
  | c :: t =>
    if c = '-' then (decDigits t).map (fun n : Nat => -(n : Int))
    else if c = '+' then (decDigits t).map (fun n : Nat => (n : Int))
    else (decDigits (c :: t)).map (fun n : Nat => (n : Int))

/-- Digit characters of Python `str()` of the float whose exact value is
`m/100`, for m ≥ 0: integer part, a dot, then the fraction with trailing
zeros dropped but at least one digit kept. -/
def renderCentiNat (m : Nat) : List Char :=
  if m % 100 = 0 then natChars (m / 100) ++ ['.', '0']
  else if m % 10 = 0 then natChars (m / 100) ++ ['.', Nat.digitChar (m / 10 % 10)]
  else natChars (m / 100) ++ ['.', Nat.digitChar (m / 10 % 10), Nat.digitChar (m % 10)]

/-- Python `str()` of the float whose exact value is `m/100`. -/
def renderCenti (m : Int) : String :=
  if m < 0 then String.mk ('-' :: renderCentiNat m.natAbs)
  else String.mk (renderCentiNat m.natAbs)

/-- Python `float(s)` on an unsigned decimal literal: digits with at most
one dot, at least one digit overall. -/
def parseUnsignedQ (cs : List Char) : Option ℚ :=
  let ip := cs.takeWhile (· != '.')
  match cs.dropWhile (· != '.') with
  | [] =>
    if ip.isEmpty then none
    else (parseDigitsAux 0 ip).map (fun n : Nat => (n : ℚ))
  | _ :: fp =>
    if fp.any (· == '.') then none
    else if ip.isEmpty && fp.isEmpty then none
    else (parseDigitsAux 0 (ip ++ fp)).map (fun n : Nat => (n : ℚ) / 10 ^ fp.length)

/-- Python `float(s)` on plain decimal literals (optional sign). -/
def parseFloatQ (s : String) : Option ℚ :=
  match s.data with
  | [] => none
  | c :: t =>
    if c = '-' then (parseUnsignedQ t).map (fun q => -q)
    else if c = '+' then parseUnsignedQ t
    else parseUnsignedQ (c :: t)

/-- Python `round(x, 2)` on a value modelled as an exact rational. -/
def round2 (x : ℚ) : ℚ := ((round (100 * x) : ℤ) : ℚ) / 100

/-- A value exactly representable with 2 decimal places. -/
def IsCenti (q : ℚ) : Prop := ∃ m : ℤ, q = (m : ℚ) / 100

/-- A whole-number value. -/
def IsWhole (q : ℚ) : Prop := ∃ m : ℤ, q = (m : ℚ)

/-- `_clip(x, lo, hi) = max(lo, min(hi, x))`. -/
def clip (x lo hi : ℚ) : ℚ := max lo (min hi x)

/-- The eight metric field names, in wire order. -/
def fieldNames : List String :=
  ["bandwidth_gbps", "latency_us", "packet_errors", "cpu_util_pct",
   "mem_util_pct", "buffer_occupancy_pct", "egress_drops_per_s", "temperature_c"]

/-- `_fmt_id(i)`, Python `f"sw-{i:03d}"`: the decimal digits of `i`,
zero-padded on the left to width at least 3, after the prefix `sw-`. -/
def fmtId (i : Nat) : String :=
  String.mk ('s' :: 'w' :: '-' :: (List.replicate (3 - (natChars i).length) '0' ++ natChars i))

/-- Python `random.uniform(a, b) = a + (b - a) * u` for a unit draw `u`. -/
def uniformQ (a b u : ℚ) : ℚ := a + (b - a) * u

/-- All random draws one entity can consume in a generation cycle.
Gaussian draws are unconstrained rationals; spike tests are the
`random.random()` values compared against the spike probabilities;
`kPktBurst` is the `randint(5, 30)` draw; `kPkt` and `kDrop` are the
values of `_poisson_small` (a non-negative count by construction —
its rejection loop, whose stopping rule involves `exp(-lam)`, is
represented by the oracle-supplied count itself). -/
structure EntityDraws where
  gBw : ℚ
  uLatSpike : ℚ
  uLat : ℚ
  gLat : ℚ
  uPktBurst : ℚ
  kPktBurst : ℕ
  kPkt : ℕ
  uCpuSpike : ℚ
  uCpu : ℚ
  gCpu : ℚ
  gMem : ℚ
  uBufSpike : ℚ
  uBuf : ℚ
  gBuf : ℚ
  uDropBurst : ℚ
  uDrop : ℚ
  kDrop : ℕ
  gTemp : ℚ

/-- What Python's RNG guarantees about the draws: unit draws from
`random.random()` lie in [0,1) and `randint(5, 30)` is in [5, 30]. -/
def EntityDraws.Valid (d : EntityDraws) : Prop :=
  (0 ≤ d.uLat ∧ d.uLat < 1) ∧ (0 ≤ d.uCpu ∧ d.uCpu < 1) ∧
  (0 ≤ d.uBuf ∧ d.uBuf < 1) ∧ (0 ≤ d.uDrop ∧ d.uDrop < 1) ∧
  (5 ≤ d.kPktBurst ∧ d.kPktBurst ≤ 30)

/-- The metric row built for one entity by `generate_snapshot`
(the per-entity loop body, with the oracle's draws substituted for the
RNG calls). -/
def genRow (d : EntityDraws) : List (String × ℚ) :=
  let bw := max 0 d.gBw
  let lat := if d.uLatSpike < 3 / 100 then uniformQ 50 150 d.uLat else max 1 d.gLat
  let pktErrs : ℕ := if d.uPktBurst < 1 / 100 then d.kPktBurst else d.kPkt
  let cpu := if d.uCpuSpike < 5 / 100 then uniformQ 80 100 d.uCpu else clip d.gCpu 0 100
  let mem := clip d.gMem 0 100
  let buf := if d.uBufSpike < 8 / 100 then uniformQ 70 100 d.uBuf else clip d.gBuf 0 100
  let drops := if d.uDropBurst < 2 / 100 then uniformQ 100 1000 d.uDrop else (d.kDrop : ℚ)
  let temp := clip (d.gTemp + 6 / 100 * cpu) 30 90
  [("bandwidth_gbps", round2 bw),
   ("latency_us", round2 lat),
   ("packet_errors", (pktErrs : ℚ)),
   ("cpu_util_pct", round2 cpu),
   ("mem_util_pct", round2 mem),
   ("buffer_occupancy_pct", round2 buf),
   ("egress_drops_per_s", round2 drops),
   ("temperature_c", round2 temp)]

/-- A producer-side snapshot `(snapshot_id, ts_ms, fields, rows)`. -/
structure ProdSnapshot where
  version : ℕ
  ts : ℕ
  fields : List String
  rows : List (String × List (String × ℚ))

/-- `generate_snapshot(n_switches, prev_id)`: the wall clock supplies
`tsMs` and the RNG is an oracle of per-entity draws. -/
def generate_snapshot (nSwitches : ℕ) (prevId : ℕ) (tsMs : ℕ)
    (oracle : ℕ → EntityDraws) : ProdSnapshot :=
  { version := prevId + 1
    ts := tsMs
    fields := fieldNames
    rows := (List.range nSwitches).map (fun i => (fmtId i, genRow (oracle i))) }

/-- The cell text `csv.writer` emits for a stored metric value: Python
`str()` of the float.  Every stored value is an exact multiple of 1/100,
for which `str()` prints the shortest decimal form, i.e. `renderCenti`. -/
def csvCell (q : ℚ) : String := renderCenti (round (100 * q))

/-- The data cells of one serialized row: `[vals[k] for k in fields]`;
`none` models the `KeyError` raised on a missing field. -/
def cellsFor : List String → List (String × ℚ) → Option (List String)
  | [], _ => some []
  | k :: ks, vals =>
    match dictGet vals k with
    | none => none
    | some q => (cellsFor ks vals).map (fun rest => csvCell q :: rest)

/-- The data rows of `_to_csv`, in dict order. -/
def rowsToCsv (fields : List String) : List (String × List (String × ℚ)) →
    Option (List (List String))
  | [] => some []
  | (sw, vals) :: rest =>
    match cellsFor fields vals with
    | none => none
    | some cells => (rowsToCsv fields rest).map (fun rs => (sw :: cells) :: rs)

/-- `_to_csv`: a header row `switch_id,<fields...>` then one row per
entity.  The comma/CRLF text layer of `csv.writer` is kept abstract:
no id or value contains a comma, quote or newline, so the rows of cells
determine the emitted text and vice versa. -/
def toCsvRows (s : ProdSnapshot) : Option (List (List String)) :=
  (rowsToCsv s.fields s.rows).map (fun dataRows => ("switch_id" :: s.fields) :: dataRows)

/-- Response of the `/counters` endpoint, as seen by a client. -/
inductive CountersResp
  | fault
  | notModified (etagHdr tsHdr : String)
  | payload (body : List (List String)) (etagHdr tsHdr : String)

/-- The `/counters` handler.  `fault500` is the outcome of the injected
fault draw (`randint(1,100) <= FAULT_500_PCT`); the jitter sleep only
delays the response.  `inm` is the `If-None-Match` request header
(`none` when absent).  The result is `none` only if serialization
raises (a row missing a field). -/
def counters (s : ProdSnapshot) (fault500 : Bool) (inm : Option String) :
    Option CountersResp :=
  if fault500 then some CountersResp.fault
  else
    let etag := natRepr s.version
    let isMatch : Bool :=
      match inm with
      | some t => (!(t == "")) && (t == etag)
      | none => false
    if isMatch then some (CountersResp.notModified etag (natRepr s.ts))
    else (toCsvRows s).map (fun rows => CountersResp.payload rows etag (natRepr s.ts))

/-- The response metadata `_parse_csv` reads: `ETag` and `X-Snapshot-Ts`
(`none` when the header is absent). -/
structure RespHeaders where
  etag : Option String
  snapTs : Option String

/-- `store.SnapshotMeta`. -/
structure SnapshotMeta where
  snapshot_id : String
  ts_ms : Int
  fields : List String

/-- `store.Snapshot`: parsed metadata plus the per-switch metric dict. -/
structure Snapshot where
  meta : SnapshotMeta
  data : List (String × List (String × ℚ))

/-- `enumerate(l)` from a start index. -/
def enumFrom {α : Type} : ℕ → List α → List (ℕ × α)
  | _, [] => []
  | i, a :: t => (i, a) :: enumFrom (i + 1) t

/-- The value parsed for field index `idx` of a data row:
`float(row[1 + idx])`, with `ValueError` (unparsable text) and
`IndexError` (row shorter than the header) both defaulting to `0.0`. -/
def cellVal (row : List String) (idx : ℕ) : ℚ :=
  match row.get? (1 + idx) with
  | none => 0
  | some c => (parseFloatQ c).getD 0

/-- The `vals` dict built for one data row:
`for idx, name in enumerate(fields): vals[name] = ...`. -/
def parseVals (fields : List String) (row : List String) : List (String × ℚ) :=
  dictOf (fun p => p.2) (fun p => cellVal row p.1) (enumFrom 0 fields) []

/-- The `data` dict loop of `_parse_csv`: blank rows are skipped,
non-blank rows are keyed on their first cell. -/
def buildData (fields : List String) :
    List (List String) → List (String × List (String × ℚ)) →
    List (String × List (String × ℚ))
  | [], d => d
  | row :: rest, d =>
    match row with
    | [] => buildData fields rest d
    | sw :: rowRest =>
      buildData fields rest (dictInsert d sw (parseVals fields (sw :: rowRest)))

/-- `Poller._parse_csv` on the rows-of-cells payload.  Every Python
exception path (bad `X-Snapshot-Ts`, empty payload, missing or wrong
header cell) is an `.error`, which the surrounding cycle's
`except Exception` classifies as a failure. -/
def parse_csv (rows : List (List String)) (headers : RespHeaders) :
    Except String Snapshot :=
  match parseIntStr (headers.snapTs.getD "0") with
  | none => Except.error "invalid X-Snapshot-Ts"
  | some tsMs =>
    let etag := headers.etag.getD ""
    match rows with
    | [] => Except.error "empty payload"
    | first :: rest =>
      match first with
      | [] => Except.error "CSV header missing switch_id"
      | h0 :: fields =>
        if h0 = "switch_id" then
          Except.ok { meta := { snapshot_id := if etag = "" then "0" else etag
                              , ts_ms := tsMs
                              , fields := fields }
                    , data := buildData fields rest [] }
        else Except.error "CSV header missing switch_id"

/-- Outcome of the conditional GET as one poll cycle observes it:
either the transport raised, or a response with a status code arrived. -/
inductive FetchOutcome
  | exn
  | resp (status : ℕ) (headers : RespHeaders) (body : List (List String))

/-- The poller state a cycle reads and writes: the last-seen validator
and the failure counter. -/
structure PollerState where
  etag : Option String
  failCount : ℕ

/-- How a cycle is classified by `Poller._run`. -/
inductive CycleClass
  | unchanged
  | updated
  | failed

/-- Result of one cycle: new poller state, new store slot, class. -/
structure CycleResult where
  state : PollerState
  store : Option Snapshot
  cls : CycleClass

/-- One iteration of the `Poller._run` loop body, as a total function of
the fetch outcome: a 304 is Unchanged, a 200 is parsed and applied
(parse errors caught as Failed), any other status or a raised transport
error is Failed.  Totality embeds the loop's `except Exception`: no
exception escapes a cycle. -/
def runCycle (st : PollerState) (store : Option Snapshot) (out : FetchOutcome) :
    CycleResult :=
  match out with
  | .exn => ⟨⟨st.etag, st.failCount + 1⟩, store, .failed⟩
  | .resp status headers body =>
    if status = 304 then ⟨st, store, .unchanged⟩
    else if status = 200 then
      match parse_csv body headers with
      | .ok snap => ⟨⟨headers.etag, 0⟩, some snap, .updated⟩
      | .error _ => ⟨⟨st.etag, st.failCount + 1⟩, store, .failed⟩
    else ⟨⟨st.etag, st.failCount + 1⟩, store, .failed⟩

/-- The dict returned by `RollingStats.percentiles`. -/
structure PctResult where
  p50 : ℚ
  p95 : ℚ
  p99 : ℚ
  max : ℚ
  count : ℕ

/-- `float(arr[idx])` with `idx = max(0, min(n - 1, math.ceil(p * n) - 1))`.
For `p` in {0.50, 0.95, 0.99} and `n ≤ 2000` (the deque capacity is 1000),
IEEE-double `ceil(p * n)` coincides with exact rational `ceil` (checked
exhaustively), so exact arithmetic is faithful here. -/
def pickPct (arr : List ℤ) (p : ℚ) : ℚ :=
  let n := arr.length
  if n = 0 then 0
  else
    let idx : ℤ := max 0 (min ((n : ℤ) - 1) (⌈p * n⌉ - 1))
    ((arr.getD idx.toNat 0 : ℤ) : ℚ)

/-- `RollingStats.percentiles(key)`: the per-key deque (empty when the
key is unknown), sorted ascending; `sorted(dq)` is modelled by insertion
sort (the sorted list of integers is the same for any sorting algorithm). -/
def percentiles (m : List (String × List ℤ)) (key : String) : PctResult :=
  let dq := (dictGet m key).getD []
  if dq.isEmpty then ⟨0, 0, 0, 0, 0⟩
  else
    let arr := List.insertionSort (· ≤ ·) dq
    ⟨pickPct arr (50 / 100), pickPct arr (95 / 100), pickPct arr (99 / 100),
     ((arr.getLastD 0 : ℤ) : ℚ), arr.length⟩

/-! ### Theorems -/

theorem dictGet_dictInsert_self {α : Type} (d : List (String × α)) (k : String) (v : α) :
    dictGet (dictInsert d k v) k = some v := by
  induction d with
  | nil => simp [dictInsert, dictGet]
  | cons p t ih =>
    obtain ⟨k', v'⟩ := p
    by_cases h : k' = k
    · simp [dictInsert, h, dictGet]
    · simp [dictInsert, h, dictGet, ih]

theorem dictGet_dictInsert_ne {α : Type} (d : List (String × α)) {k k' : String} (v : α)
    (h : k' ≠ k) : dictGet (dictInsert d k v) k' = dictGet d k' := by
  have h' : ¬ k = k' := fun hk => h hk.symm
  induction d with
  | nil => simp [dictInsert, dictGet, h']
  | cons p t ih =>
    obtain ⟨k₀, v₀⟩ := p
    by_cases h0 : k₀ = k
    · subst h0
      simp only [dictInsert, if_pos rfl, dictGet, if_neg h']
    · simp only [dictInsert, if_neg h0, dictGet]
      split
      · rfl
      · exact ih

theorem dictKeys_dictInsert {α : Type} (d : List (String × α)) (k : String) (v : α) :
    dictKeys (dictInsert d k v)
      = if k ∈ dictKeys d then dictKeys d else dictKeys d ++ [k] := by
  induction d with
  | nil => simp [dictInsert, dictKeys]
  | cons p t ih =>
    obtain ⟨k₀, v₀⟩ := p
    by_cases h : k₀ = k
    · subst h
      simp [dictInsert, dictKeys]
    · have hne : ¬ k = k₀ := fun hk => h hk.symm
      simp only [dictKeys, List.map_cons] at ih ⊢
      simp only [dictInsert, if_neg h, List.map_cons, List.mem_cons, hne, false_or, ih]
      by_cases hm : k ∈ List.map Prod.fst t
      · rw [if_pos hm, if_pos hm]
      · rw [if_neg hm, if_neg hm, List.cons_append]

theorem dictKeys_nodup_dictInsert {α : Type} (d : List (String × α)) (k : String) (v : α)
    (h : (dictKeys d).Nodup) : (dictKeys (dictInsert d k v)).Nodup := by
  rw [dictKeys_dictInsert]
  by_cases hm : k ∈ dictKeys d
  · simpa [hm]
  · rw [if_neg hm]
    refine List.Nodup.append h (List.nodup_singleton k) ?_
    intro x hx hx'
    rw [List.mem_singleton] at hx'
    subst hx'
    exact hm hx

theorem dictOf_cons {α β : Type} (key : α → String) (val : α → β) (a : α) (l : List α)
    (init : List (String × β)) :
    dictOf key val (a :: l) init = dictOf key val l (dictInsert init (key a) (val a)) := rfl

theorem mem_of_getLast_eq {α : Type} {l : List α} {b : α} (h : l.getLast? = some b) :
    b ∈ l := by
  induction l with
  | nil => simp at h
  | cons a t ih =>
    rw [List.getLast?_cons] at h
    cases ht : t.getLast? with
    | some c =>
      rw [ht] at h
      simp only [Option.getD_some, Option.some.injEq] at h
      subst h
      exact List.mem_cons_of_mem a (ih ht)
    | none =>
      rw [ht] at h
      simp only [Option.getD_none, Option.some.injEq] at h
      exact h ▸ List.mem_cons_self a t

/-- Lookup in a dict built by a fold: the last item with the sought key wins;
keys never touched fall through to the initial dict. -/
theorem dictGet_dictOf {α β : Type} (key : α → String) (val : α → β) (l : List α)
    (init : List (String × β)) (k : String) :
    dictGet (dictOf key val l init) k
      = ((l.filter (fun a => decide (key a = k))).getLast?).elim
          (dictGet init k) (fun a => some (val a)) := by
  induction l generalizing init with
  | nil => simp [dictOf]
  | cons a t ih =>
    rw [dictOf_cons, ih]
    by_cases h : key a = k
    · subst h
      have hcond : (decide (key a = key a)) = true := by simp
      rw [List.filter_cons, if_pos hcond, List.getLast?_cons]
      cases hf : (t.filter fun x => decide (key x = key a)).getLast? with
      | some b => simp [hf]
      | none => simp [hf, dictGet_dictInsert_self]
    · have hd : (decide (key a = k)) = false := by simpa using h
      rw [List.filter_cons, hd, if_neg (Bool.false_ne_true)]
      cases hf : (t.filter fun x => decide (key x = k)).getLast? with
      | some b => simp [hf]
      | none =>
        simp only [hf, Option.elim]
        exact dictGet_dictInsert_ne init (val a) (fun hk => h hk.symm)

theorem dictKeys_nodup_dictOf {α β : Type} (key : α → String) (val : α → β) (l : List α)
    (init : List (String × β)) (h : (dictKeys init).Nodup) :
    (dictKeys (dictOf key val l init)).Nodup := by
  induction l generalizing init with
  | nil => simpa [dictOf]
  | cons a t ih => exact ih _ (dictKeys_nodup_dictInsert _ _ _ h)

/-- A key is present in a fold-built dict iff some item produced it or it
was present initially. -/
theorem dictGet_isSome_dictOf {α β : Type} (key : α → String) (val : α → β) (l : List α)
    (init : List (String × β)) (k : String) :
    (dictGet (dictOf key val l init) k).isSome
      ↔ (∃ a ∈ l, key a = k) ∨ (dictGet init k).isSome := by
  rw [dictGet_dictOf]
  cases hf : (l.filter fun a => decide (key a = k)).getLast? with
  | some b =>
    have hb : b ∈ l.filter fun a => decide (key a = k) := mem_of_getLast_eq hf
    rw [List.mem_filter] at hb
    simp only [Option.elim, Option.isSome_some, true_iff]
    exact Or.inl ⟨b, hb.1, by simpa using hb.2⟩
  | none =>
    have hempty : (l.filter fun a => decide (key a = k)) = [] := by
      cases hl : l.filter fun a => decide (key a = k) with
      | nil => rfl
      | cons x xs => rw [hl, List.getLast?_cons] at hf; simp at hf
    simp only [Option.elim]
    constructor
    · exact Or.inr
    · rintro (⟨a, ha, hk⟩ | hx)
      · exfalso
        have hmem : a ∈ l.filter fun a => decide (key a = k) :=
          List.mem_filter.2 ⟨ha, by simpa using hk⟩
        rw [hempty] at hmem
        simp at hmem
      · exact hx

theorem natChars_lt {n : Nat} (h : n < 10) : natChars n = [Nat.digitChar n] := by
  rw [natChars]
  simp [h]

theorem natChars_ge {n : Nat} (h : ¬ n < 10) :
    natChars n = natChars (n / 10) ++ [Nat.digitChar (n % 10)] := by
  conv_lhs => rw [natChars]
  simp [h]

theorem natChars_ne_nil (n : Nat) : natChars n ≠ [] := by
  by_cases h : n < 10
  · rw [natChars_lt h]
    simp
  · rw [natChars_ge h]
    simp

theorem natChars_mem (n : Nat) : ∀ c ∈ natChars n, ∃ d, d < 10 ∧ c = Nat.digitChar d := by
  induction n using Nat.strong_induction_on with
  | _ n ih =>
    intro c hc
    by_cases h : n < 10
    · rw [natChars_lt h] at hc
      rw [List.mem_singleton] at hc
      exact ⟨n, h, hc⟩
    · rw [natChars_ge h, List.mem_append] at hc
      rcases hc with hc | hc
      · exact ih (n / 10) (Nat.div_lt_self (by omega) (by omega)) c hc
      · rw [List.mem_singleton] at hc
        exact ⟨n % 10, Nat.mod_lt _ (by omega), hc⟩

theorem digitVal_digitChar : ∀ d < 10, digitVal (Nat.digitChar d) = some d := by decide

theorem parseDigitsAux_append (acc : Nat) (xs ys : List Char) :
    parseDigitsAux acc (xs ++ ys)
      = (parseDigitsAux acc xs).bind (fun a => parseDigitsAux a ys) := by
  induction xs generalizing acc with
  | nil => simp [parseDigitsAux]
  | cons c cs ih =>
    simp only [List.cons_append, parseDigitsAux]
    cases digitVal c with
    | some d => simp [ih]
    | none => simp

theorem parseDigitsAux_natChars (n : Nat) :
    ∀ acc, parseDigitsAux acc (natChars n) = some (acc * 10 ^ (natChars n).length + n) := by
  induction n using Nat.strong_induction_on with
  | _ n ih =>
    intro acc
    by_cases h : n < 10
    · rw [natChars_lt h]
      simp only [parseDigitsAux, digitVal_digitChar n h, List.length_singleton]
      norm_num
    · rw [natChars_ge h, parseDigitsAux_append,
        ih (n / 10) (Nat.div_lt_self (by omega) (by omega)) acc]
      simp only [Option.bind_some, parseDigitsAux,
        digitVal_digitChar (n % 10) (Nat.mod_lt _ (by omega))]
      have hlen : (natChars (n / 10) ++ [Nat.digitChar (n % 10)]).length
          = (natChars (n / 10)).length + 1 := by simp
      rw [hlen]
      have hb : ∀ (x : Nat) (f : Nat → Option Nat), (some x).bind f = f x := fun _ _ => rfl
      rw [hb]
      congr 1
      rw [pow_succ]
      calc (acc * 10 ^ (natChars (n / 10)).length + n / 10) * 10 + n % 10
      _ = acc * (10 ^ (natChars (n / 10)).length * 10) + (10 * (n / 10) + n % 10) := by ring
      _ = acc * (10 ^ (natChars (n / 10)).length * 10) + n := by rw [Nat.div_add_mod]

theorem decDigits_natChars (n : Nat) : decDigits (natChars n) = some n := by
  rw [decDigits, if_neg (by simpa [List.isEmpty_iff] using natChars_ne_nil n),
    parseDigitsAux_natChars]
  simp

theorem digitChar_not_sign : ∀ d < 10,
    Nat.digitChar d ≠ '-' ∧ Nat.digitChar d ≠ '+' ∧ Nat.digitChar d ≠ '.' := by decide

theorem parseIntStr_natRepr (n : Nat) : parseIntStr (natRepr n) = some (n : Int) := by
  rw [natRepr]
  obtain ⟨c, t, hct⟩ : ∃ c t, natChars n = c :: t := by
    cases h : natChars n with
    | nil => exact absurd h (natChars_ne_nil n)
    | cons c t => exact ⟨c, t, rfl⟩
  have hc : c ∈ natChars n := by rw [hct]; exact List.mem_cons_self c t
  obtain ⟨d, hd, hcd⟩ := natChars_mem n c hc
  obtain ⟨h1, h2, _⟩ := digitChar_not_sign d hd
  rw [hct]
  simp only [parseIntStr]
  rw [if_neg (hcd ▸ h1), if_neg (hcd ▸ h2), ← hct, decDigits_natChars]
  simp

theorem takeWhile_append_of_all {p : Char → Bool} {xs : List Char} (y : Char) (ys : List Char)
    (hxs : ∀ c ∈ xs, p c = true) (hy : p y = false) :
    (xs ++ y :: ys).takeWhile p = xs := by
  induction xs with
  | nil => simp [List.takeWhile, hy]
  | cons c cs ih =>
    rw [List.cons_append, List.takeWhile_cons, hxs c (List.mem_cons_self c cs),
      ih (fun a ha => hxs a (List.mem_cons_of_mem c ha)), if_pos rfl]

theorem dropWhile_append_of_all {p : Char → Bool} {xs : List Char} (y : Char) (ys : List Char)
    (hxs : ∀ c ∈ xs, p c = true) (hy : p y = false) :
    (xs ++ y :: ys).dropWhile p = y :: ys := by
  induction xs with
  | nil => simp [List.dropWhile, hy]
  | cons c cs ih =>
    rw [List.cons_append, List.dropWhile_cons, hxs c (List.mem_cons_self c cs), if_pos rfl]
    exact ih (fun a ha => hxs a (List.mem_cons_of_mem c ha))

theorem natChars_not_dot (n : Nat) : ∀ c ∈ natChars n, (c != '.') = true := by
  intro c hc
  obtain ⟨d, hd, rfl⟩ := natChars_mem n c hc
  have := (digitChar_not_sign d hd).2.2
  simpa using this

theorem parseUnsignedQ_split (ds fs : List Char) (hds : ∀ c ∈ ds, (c != '.') = true)
    (hne : ds ≠ []) (hfs : ∀ c ∈ fs, c ≠ '.') :
    parseUnsignedQ (ds ++ '.' :: fs)
      = (parseDigitsAux 0 (ds ++ fs)).map (fun n : Nat => (n : ℚ) / 10 ^ fs.length) := by
  have hdot : (('.' : Char) != '.') = false := by decide
  have htake := takeWhile_append_of_all ('.') fs hds hdot
  have hdrop := dropWhile_append_of_all ('.') fs hds hdot
  have hanyf : fs.any (· == '.') = false := by
    rw [List.any_eq_false]
    intro x hx
    simp [hfs x hx]
  have hipne : ds.isEmpty = false := by
    cases ds with
    | nil => exact absurd rfl hne
    | cons a t => rfl
  simp only [parseUnsignedQ, htake, hdrop, hanyf, Bool.false_eq_true, if_false, hipne,
    Bool.false_and]

theorem parseUnsignedQ_renderCentiNat (m : Nat) :
    parseUnsignedQ (renderCentiNat m) = some ((m : ℚ) / 100) := by
  have hb : ∀ (x : Nat) (f : Nat → Option Nat), (some x).bind f = f x := fun _ _ => rfl
  have hauxip : parseDigitsAux 0 (natChars (m / 100)) = some (m / 100) := by
    rw [parseDigitsAux_natChars]
    simp
  by_cases h100 : m % 100 = 0
  · rw [renderCentiNat, if_pos h100,
      parseUnsignedQ_split _ _ (natChars_not_dot _) (natChars_ne_nil _) (by decide),
      parseDigitsAux_append, hauxip, hb]
    have hstep : parseDigitsAux (m / 100) ['0'] = some (m / 100 * 10) := by
      simp [parseDigitsAux, show digitVal '0' = some 0 from by decide]
    rw [hstep]
    have hdvd : (m / 100) * 100 = m := Nat.div_mul_cancel (Nat.dvd_of_mod_eq_zero h100)
    have hq : ((m / 100 : ℕ) : ℚ) * 100 = (m : ℚ) := by exact_mod_cast congrArg Nat.cast hdvd
    simp only [List.length_singleton, pow_one]
    rw [Option.map_some', Option.some.injEq,
      div_eq_div_iff (by norm_num) (by norm_num)]
    push_cast
    push_cast at hq
    linarith
  · by_cases h10 : m % 10 = 0
    · rw [renderCentiNat, if_neg h100, if_pos h10,
        parseUnsignedQ_split _ _ (natChars_not_dot _) (natChars_ne_nil _) (by
          intro c hc
          rw [List.mem_singleton] at hc
          subst hc
          exact (digitChar_not_sign _ (Nat.mod_lt _ (by omega))).2.2),
        parseDigitsAux_append, hauxip, hb]
      have hstep : parseDigitsAux (m / 100) [Nat.digitChar (m / 10 % 10)]
          = some (m / 10) := by
        simp only [parseDigitsAux, digitVal_digitChar (m / 10 % 10) (Nat.mod_lt _ (by omega))]
        congr 1
        omega
      rw [hstep]
      have hdvd : (m / 10) * 10 = m := Nat.div_mul_cancel (Nat.dvd_of_mod_eq_zero h10)
      have hq : ((m / 10 : ℕ) : ℚ) * 10 = (m : ℚ) := by exact_mod_cast congrArg Nat.cast hdvd
      simp only [List.length_singleton, pow_one]
      rw [Option.map_some', Option.some.injEq,
        div_eq_div_iff (by norm_num) (by norm_num)]
      push_cast
      push_cast at hq
      linarith
    · rw [renderCentiNat, if_neg h100, if_neg h10,
        parseUnsignedQ_split _ _ (natChars_not_dot _) (natChars_ne_nil _) (by
          intro c hc
          rcases List.mem_cons.1 hc with h | h
          · subst h
            exact (digitChar_not_sign _ (Nat.mod_lt _ (by omega))).2.2
          · rw [List.mem_singleton] at h
            subst h
            exact (digitChar_not_sign _ (Nat.mod_lt _ (by omega))).2.2),
        parseDigitsAux_append, hauxip, hb]
      have hstep : parseDigitsAux (m / 100) [Nat.digitChar (m / 10 % 10), Nat.digitChar (m % 10)]
          = some m := by
        simp only [parseDigitsAux, digitVal_digitChar (m / 10 % 10) (Nat.mod_lt _ (by omega)),
          digitVal_digitChar (m % 10) (Nat.mod_lt _ (by omega))]
        congr 1
        omega
      rw [hstep]
      simp only [List.length_cons, List.length_nil]
      rw [Option.map_some', Option.some.injEq]
      norm_num

theorem renderCentiNat_head (m : Nat) :
    ∃ c t, renderCentiNat m = c :: t ∧ c ≠ '-' ∧ c ≠ '+' := by
  obtain ⟨rest, hrest⟩ : ∃ rest, renderCentiNat m = natChars (m / 100) ++ rest := by
    rw [renderCentiNat]
    split_ifs <;> exact ⟨_, rfl⟩
  obtain ⟨c, t, hct⟩ : ∃ c t, natChars (m / 100) = c :: t := by
    cases h : natChars (m / 100) with
    | nil => exact absurd h (natChars_ne_nil _)
    | cons c t => exact ⟨c, t, rfl⟩
  have hc : c ∈ natChars (m / 100) := by
    rw [hct]
    exact List.mem_cons_self c t
  obtain ⟨d, hd, hcd⟩ := natChars_mem _ c hc
  obtain ⟨h1, h2, _⟩ := digitChar_not_sign d hd
  exact ⟨c, t ++ rest, by rw [hrest, hct, List.cons_append], hcd ▸ h1, hcd ▸ h2⟩

theorem parseFloatQ_mk_renderCentiNat (m : Nat) :
    parseFloatQ (String.mk (renderCentiNat m)) = some ((m : ℚ) / 100) := by
  obtain ⟨c, t, hct, h1, h2⟩ := renderCentiNat_head m
  rw [hct]
  simp only [parseFloatQ]
  rw [if_neg h1, if_neg h2, ← hct, parseUnsignedQ_renderCentiNat]

/-- `str`/`float` round-trip on every exact multiple of 1/100. -/
theorem parseFloatQ_renderCenti (m : Int) :
    parseFloatQ (renderCenti m) = some ((m : ℚ) / 100) := by
  by_cases hm : m < 0
  · rw [renderCenti, if_pos hm,
      show parseFloatQ (String.mk ('-' :: renderCentiNat m.natAbs))
        = (parseUnsignedQ (renderCentiNat m.natAbs)).map (fun q => -q) from by
          simp [parseFloatQ],
      parseUnsignedQ_renderCentiNat, Option.map_some']
    congr 1
    have habs : ((m.natAbs : ℕ) : ℚ) = -(m : ℚ) := by
      rw [Int.cast_natAbs]
      push_cast
      exact abs_of_neg (by exact_mod_cast hm)
    rw [habs]
    ring
  · rw [renderCenti, if_neg hm, parseFloatQ_mk_renderCentiNat]
    congr 1
    have habs : ((m.natAbs : ℕ) : ℚ) = (m : ℚ) := by
      rw [Int.cast_natAbs]
      push_cast
      exact abs_of_nonneg (by exact_mod_cast not_lt.1 hm)
    rw [habs]

theorem isCenti_round2 (x : ℚ) : IsCenti (round2 x) := ⟨round (100 * x), rfl⟩

theorem isCenti_natCast (n : ℕ) : IsCenti ((n : ℚ)) :=
  ⟨100 * (n : ℤ), by push_cast; ring⟩

theorem isWhole_natCast (n : ℕ) : IsWhole ((n : ℚ)) := ⟨(n : ℤ), by push_cast; ring⟩

theorem round2_of_centi {m : ℤ} : round2 ((m : ℚ) / 100) = (m : ℚ) / 100 := by
  rw [round2]
  have h : (100 : ℚ) * ((m : ℚ) / 100) = (m : ℚ) := by field_simp
  rw [h, round_intCast]

theorem le_round2 {l : ℤ} {x : ℚ} (h : (l : ℚ) ≤ x) : (l : ℚ) ≤ round2 x := by
  rw [round2, le_div_iff (by norm_num : (0 : ℚ) < 100)]
  have h1 : (100 * l : ℤ) ≤ round (100 * x) := by
    rw [round_eq, Int.le_floor]
    push_cast
    linarith
  calc (l : ℚ) * 100 = ((100 * l : ℤ) : ℚ) := by push_cast; ring
  _ ≤ ((round (100 * x) : ℤ) : ℚ) := by exact_mod_cast h1

theorem round2_le {u : ℤ} {x : ℚ} (hx : x ≤ (u : ℚ)) : round2 x ≤ (u : ℚ) := by
  rw [round2, div_le_iff (by norm_num : (0 : ℚ) < 100)]
  have h1 : round (100 * x) ≤ 100 * u := by
    rw [round_eq]
    have h2 : ⌊100 * x + 1 / 2⌋ < 100 * u + 1 := by
      rw [Int.floor_lt]
      push_cast
      linarith
    omega
  calc ((round (100 * x) : ℤ) : ℚ) ≤ ((100 * u : ℤ) : ℚ) := by exact_mod_cast h1
  _ = (u : ℚ) * 100 := by push_cast; ring

theorem le_clip (x lo hi : ℚ) : lo ≤ clip x lo hi := le_max_left _ _

theorem clip_le {x lo hi : ℚ} (h : lo ≤ hi) : clip x lo hi ≤ hi :=
  max_le h (min_le_left _ _)

theorem parseFloatQ_csvCell {q : ℚ} (h : IsCenti q) : parseFloatQ (csvCell q) = some q := by
  obtain ⟨m, rfl⟩ := h
  rw [csvCell]
  have h100 : (100 : ℚ) * ((m : ℚ) / 100) = (m : ℚ) := by field_simp
  rw [h100, round_intCast, parseFloatQ_renderCenti]

theorem buildData_eq_dictOf (fields : List String) (rows : List (List String))
    (d : List (String × List (String × ℚ))) :
    buildData fields rows d
      = dictOf (fun r => r.headD "") (fun r => parseVals fields r)
          (rows.filter (fun r => !r.isEmpty)) d := by
  induction rows generalizing d with
  | nil => simp [buildData, dictOf]
  | cons row rest ih =>
    cases row with
    | nil => simp [buildData, ih]
    | cons sw rowRest =>
      rw [show buildData fields ((sw :: rowRest) :: rest) d
          = buildData fields rest (dictInsert d sw (parseVals fields (sw :: rowRest)))
          from rfl, ih]
      simp [dictOf_cons, List.headD]

/-- C1 counterexample: an Unchanged cycle (status 304) does not reset the
failure counter — with `fail_count = 3` before the cycle, the cycle is
classified Unchanged yet the counter stays 3, contradicting the claim
that Unchanged resets it to 0. -/
theorem unchanged_cycle_keeps_fail_count_three :
    (runCycle ⟨none, 3⟩ none (FetchOutcome.resp 304 ⟨none, none⟩ [])).cls
      = CycleClass.unchanged
    ∧ (runCycle ⟨none, 3⟩ none (FetchOutcome.resp 304 ⟨none, none⟩ [])).state.failCount
      = 3 := by
  constructor <;> rfl

/-- C1 (amended): a Failed cycle (transport error, non-success status or
parse error) leaves the store untouched and increments the failure counter
by exactly one, and no exception escapes the cycle (`runCycle` is total);
an Updated cycle resets the counter to 0; an Unchanged cycle leaves both
the store and the counter unchanged (the code does not reset the counter
on a 304). -/
theorem cycle_failure_counter (st : PollerState) (store : Option Snapshot)
    (out : FetchOutcome) :
    ((runCycle st store out).cls = CycleClass.failed →
      (runCycle st store out).store = store ∧
      (runCycle st store out).state.failCount = st.failCount + 1) ∧
    ((runCycle st store out).cls = CycleClass.updated →
      (runCycle st store out).state.failCount = 0) ∧
    ((runCycle st store out).cls = CycleClass.unchanged →
      (runCycle st store out).store = store ∧
      (runCycle st store out).state.failCount = st.failCount) := by
  rcases out with _ | ⟨status, headers, body⟩
  · refine ⟨fun _ => ⟨rfl, rfl⟩, ?_, ?_⟩ <;> intro h <;> simp [runCycle] at h
  · by_cases h304 : status = 304
    · subst h304
      refine ⟨?_, ?_, fun _ => ⟨rfl, rfl⟩⟩ <;> intro h <;> simp [runCycle] at h
    · by_cases h200 : status = 200
      · subst h200
        cases hp : parse_csv body headers with
        | ok snap =>
          have hr : runCycle st store (FetchOutcome.resp 200 headers body)
              = ⟨⟨headers.etag, 0⟩, some snap, CycleClass.updated⟩ := by
            simp [runCycle, hp]
          rw [hr]
          refine ⟨?_, fun _ => rfl, ?_⟩ <;> intro h <;> simp at h
        | error e =>
          have hr : runCycle st store (FetchOutcome.resp 200 headers body)
              = ⟨⟨st.etag, st.failCount + 1⟩, store, CycleClass.failed⟩ := by
            simp [runCycle, hp]
          rw [hr]
          refine ⟨fun _ => ⟨rfl, rfl⟩, ?_, ?_⟩ <;> intro h <;> simp at h
      · have hr : runCycle st store (FetchOutcome.resp status headers body)
            = ⟨⟨st.etag, st.failCount + 1⟩, store, CycleClass.failed⟩ := by
          simp [runCycle, h304, h200]
        rw [hr]
        refine ⟨fun _ => ⟨rfl, rfl⟩, ?_, ?_⟩ <;> intro h <;> simp at h

/-- Witness for `cycle_failure_counter` at a concrete failed cycle: a 500
response with `fail_count = 2` leaves the (empty) store untouched and bumps
the counter to 3. -/
theorem cycle_failure_counter_witness :
    (runCycle ⟨none, 2⟩ none (FetchOutcome.resp 500 ⟨none, none⟩ [])).cls
        = CycleClass.failed
    ∧ (runCycle ⟨none, 2⟩ none (FetchOutcome.resp 500 ⟨none, none⟩ [])).store = none
    ∧ (runCycle ⟨none, 2⟩ none (FetchOutcome.resp 500 ⟨none, none⟩ [])).state.failCount
        = 2 + 1 := by
  have h := cycle_failure_counter ⟨none, 2⟩ none (FetchOutcome.resp 500 ⟨none, none⟩ [])
  exact ⟨rfl, (h.1 rfl).1, (h.1 rfl).2⟩

/-- C10: `_parse_csv` never fails because of missing response metadata:
with the `ETag` header absent or empty the parsed `snapshot_id` is `"0"`,
and with `X-Snapshot-Ts` absent the parsed `ts_ms` is 0. -/
theorem parse_csv_missing_metadata (fields : List String) (rest : List (List String))
    (etagOpt : Option String) (hetag : etagOpt = none ∨ etagOpt = some "") :
    ∃ snap, parse_csv (("switch_id" :: fields) :: rest) ⟨etagOpt, none⟩ = Except.ok snap
      ∧ snap.meta.snapshot_id = "0" ∧ snap.meta.ts_ms = 0 := by
  rcases hetag with rfl | rfl
  · exact ⟨_, rfl, rfl, rfl⟩
  · exact ⟨_, rfl, rfl, rfl⟩

/-- Witness for `parse_csv_missing_metadata`: a header-only payload with
both headers absent parses to `snapshot_id = "0"`, `ts_ms = 0`. -/
theorem parse_csv_missing_metadata_witness :
    ((none : Option String) = none ∨ (none : Option String) = some "")
    ∧ ∃ snap, parse_csv [["switch_id"]] ⟨none, none⟩ = Except.ok snap
        ∧ snap.meta.snapshot_id = "0" ∧ snap.meta.ts_ms = 0 :=
  ⟨Or.inl rfl, parse_csv_missing_metadata [] [] none (Or.inl rfl)⟩

theorem dictGet_isSome_iff_mem {α : Type} (d : List (String × α)) (k : String) :
    (dictGet d k).isSome ↔ k ∈ dictKeys d := by
  induction d with
  | nil => simp [dictGet, dictKeys]
  | cons p t ih =>
    obtain ⟨k0, v0⟩ := p
    by_cases h : k0 = k
    · subst h
      simp [dictGet, dictKeys]
    · have h' : ¬ k = k0 := fun hk => h hk.symm
      simp [dictGet, dictKeys, h, h', ih]

/-- C9: `_parse_csv` raises no error on duplicate ids; for every id the
parsed data holds exactly one entry (keys are duplicate-free), namely the
parse of the last non-blank row carrying that id as its first cell. -/
theorem parse_csv_duplicate_last_wins (fields : List String) (rest : List (List String))
    (headers : RespHeaders) (hts : (parseIntStr (headers.snapTs.getD "0")).isSome)
    (k : String) :
    ∃ snap, parse_csv (("switch_id" :: fields) :: rest) headers = Except.ok snap
      ∧ (dictKeys snap.data).Nodup
      ∧ dictGet snap.data k
          = ((rest.filter (fun r => decide (r.headD "" = k) && !r.isEmpty)).getLast?).elim
              none (fun r => some (parseVals fields r)) := by
  obtain ⟨ts, hts2⟩ := Option.isSome_iff_exists.1 hts
  have hok : parse_csv (("switch_id" :: fields) :: rest) headers
      = Except.ok ⟨⟨if headers.etag.getD "" = "" then "0" else headers.etag.getD "",
          ts, fields⟩, buildData fields rest []⟩ := by
    simp [parse_csv, hts2]
  refine ⟨_, hok, ?_, ?_⟩
  · show (dictKeys (buildData fields rest [])).Nodup
    rw [buildData_eq_dictOf]
    exact dictKeys_nodup_dictOf _ _ _ _ (by simp [dictKeys])
  · show dictGet (buildData fields rest []) k = _
    rw [buildData_eq_dictOf, dictGet_dictOf, List.filter_filter]
    rfl

/-- Witness for `parse_csv_duplicate_last_wins`: two rows with id `x`;
the lookup for `x` is the parse of the second one. -/
theorem parse_csv_duplicate_last_wins_witness :
    (parseIntStr ((RespHeaders.mk none none).snapTs.getD "0")).isSome
    ∧ ∃ snap, parse_csv [["switch_id", "f"], ["x", "1.0"], ["x", "2.0"]] ⟨none, none⟩
          = Except.ok snap
        ∧ (dictKeys snap.data).Nodup
        ∧ dictGet snap.data "x"
            = (([["x", "1.0"], ["x", "2.0"]].filter
                  (fun r => decide (r.headD "" = "x") && !r.isEmpty)).getLast?).elim
                none (fun r => some (parseVals ["f"] r)) :=
  ⟨rfl, parse_csv_duplicate_last_wins ["f"] [["x", "1.0"], ["x", "2.0"]] ⟨none, none⟩ rfl "x"⟩

/-- C5: `RollingStats.percentiles(key)`: with no samples it returns all-zero
percentiles, zero max and `count = 0`; with `n ≥ 1` samples it sorts the
samples ascending and returns, for each `p` in {0.50, 0.95, 0.99}, the
element at index `clamp(ceil(p*n) - 1, 0, n-1)` of the sorted copy, the
last (largest) element as `max`, and `count = n`; for `n = 1` all
percentiles equal the single sample. -/
theorem percentiles_spec (m : List (String × List ℤ)) (key : String) :
    ((dictGet m key).getD [] = [] → percentiles m key = ⟨0, 0, 0, 0, 0⟩) ∧
    (∀ dq, dictGet m key = some dq → dq ≠ [] →
      ∃ arr, arr.Perm dq ∧ List.Sorted (· ≤ ·) arr ∧
        percentiles m key
          = ⟨((arr.getD (max 0 (min ((dq.length : ℤ) - 1)
                  (⌈(50 / 100 : ℚ) * dq.length⌉ - 1))).toNat 0 : ℤ) : ℚ),
             ((arr.getD (max 0 (min ((dq.length : ℤ) - 1)
                  (⌈(95 / 100 : ℚ) * dq.length⌉ - 1))).toNat 0 : ℤ) : ℚ),
             ((arr.getD (max 0 (min ((dq.length : ℤ) - 1)
                  (⌈(99 / 100 : ℚ) * dq.length⌉ - 1))).toNat 0 : ℤ) : ℚ),
             ((arr.getLastD 0 : ℤ) : ℚ), dq.length⟩) ∧
    (∀ x : ℤ, dictGet m key = some [x] →
      percentiles m key = ⟨(x : ℚ), (x : ℚ), (x : ℚ), (x : ℚ), 1⟩) := by
  refine ⟨?_, ?_, ?_⟩
  · intro h
    simp [percentiles, h]
  · intro dq hdq hne
    refine ⟨List.insertionSort (· ≤ ·) dq, List.perm_insertionSort _ dq,
      List.sorted_insertionSort _ dq, ?_⟩
    have hlen : (List.insertionSort (· ≤ ·) dq).length = dq.length :=
      (List.perm_insertionSort _ dq).length_eq
    have hemp : dq.isEmpty = false := by
      cases dq with
      | nil => exact absurd rfl hne
      | cons a t => rfl
    have hn0 : ¬ (List.insertionSort (· ≤ ·) dq).length = 0 := by
      rw [hlen]
      cases dq with
      | nil => exact absurd rfl hne
      | cons a t => simp
    have hdq0 : ¬ dq.length = 0 := by
      cases dq with
      | nil => exact absurd rfl hne
      | cons a t => simp
    simp only [percentiles, hdq, Option.getD_some, hemp, Bool.false_eq_true, if_false,
      pickPct, hlen, if_neg hn0]
    simp [hdq0]
  · intro x hx
    have harr : List.insertionSort (· ≤ ·) [x] = [x] := rfl
    simp only [percentiles, hx, Option.getD_some, List.isEmpty_cons, Bool.false_eq_true,
      if_false, harr, pickPct, List.length_singleton]
    norm_num

/-- Witness for `percentiles_spec`: an unknown key gives the all-zero
result; a key with the single sample 5 gives 5 for every percentile and
the max, with count 1. -/
theorem percentiles_spec_witness :
    (dictGet [("q", [(5 : ℤ)])] "z").getD [] = []
    ∧ percentiles [("q", [(5 : ℤ)])] "z" = ⟨0, 0, 0, 0, 0⟩
    ∧ dictGet [("q", [(5 : ℤ)])] "q" = some [5]
    ∧ percentiles [("q", [(5 : ℤ)])] "q" = ⟨5, 5, 5, 5, 1⟩ :=
  ⟨rfl, (percentiles_spec [("q", [5])] "z").1 rfl, rfl,
    (percentiles_spec [("q", [5])] "q").2.2 5 rfl⟩

theorem natRepr_ne_empty (n : ℕ) : natRepr n ≠ "" := by
  rw [natRepr]
  intro hc
  have hdata : natChars n = [] := by simpa using congrArg String.data hc
  exact natChars_ne_nil n hdata

/-- C3: a `/counters` read (no injected fault) carrying client token `t`
returns 304/Unchanged with `ETag = str(version)` exactly when
`t = str(version)`; any other present token, and an absent token, yield
the full serialized body together with `str(version)`; and a consumer
cycle that receives a 304 performs no SnapshotStore mutation. -/
theorem counters_conditional_read (s : ProdSnapshot) (t : String)
    (hser : (toCsvRows s).isSome) :
    (counters s false (some t)
        = some (CountersResp.notModified (natRepr s.version) (natRepr s.ts))
      ↔ t = natRepr s.version) ∧
    (t ≠ natRepr s.version →
      ∃ rows, toCsvRows s = some rows ∧
        counters s false (some t)
          = some (CountersResp.payload rows (natRepr s.version) (natRepr s.ts))) ∧
    (∃ rows, toCsvRows s = some rows ∧
      counters s false none
        = some (CountersResp.payload rows (natRepr s.version) (natRepr s.ts))) ∧
    (∀ (st : PollerState) (store : Option Snapshot) (headers : RespHeaders)
        (body : List (List String)),
      (runCycle st store (FetchOutcome.resp 304 headers body)).store = store
      ∧ (runCycle st store (FetchOutcome.resp 304 headers body)).cls
          = CycleClass.unchanged) := by
  obtain ⟨rows, hrows⟩ := Option.isSome_iff_exists.1 hser
  have hne : natRepr s.version ≠ "" := natRepr_ne_empty s.version
  refine ⟨?_, ?_, ?_, fun st store headers body => ⟨rfl, rfl⟩⟩
  · constructor
    · intro hcm
      by_contra ht
      have hc2 : counters s false (some t)
          = some (CountersResp.payload rows (natRepr s.version) (natRepr s.ts)) := by
        simp [counters, ht, hrows]
      rw [hc2] at hcm
      simp at hcm
    · intro ht
      subst ht
      simp [counters, hne]
  · intro ht
    exact ⟨rows, hrows, by simp [counters, ht, hrows]⟩
  · exact ⟨rows, hrows, by simp [counters, hrows]⟩

/-- Witness for `counters_conditional_read`: a snapshot at version 7 with
one switch and one field, queried with the stale token `"6"`. -/
theorem counters_conditional_read_witness :
    (toCsvRows ⟨7, 123, ["a"], [("x", [("a", (1 : ℚ) / 2)])]⟩).isSome
    ∧ ((counters ⟨7, 123, ["a"], [("x", [("a", (1 : ℚ) / 2)])]⟩ false (some "6")
          = some (CountersResp.notModified (natRepr 7) (natRepr 123))
        ↔ "6" = natRepr 7) ∧
      ("6" ≠ natRepr 7 →
        ∃ rows, toCsvRows ⟨7, 123, ["a"], [("x", [("a", (1 : ℚ) / 2)])]⟩ = some rows ∧
          counters ⟨7, 123, ["a"], [("x", [("a", (1 : ℚ) / 2)])]⟩ false (some "6")
            = some (CountersResp.payload rows (natRepr 7) (natRepr 123))) ∧
      (∃ rows, toCsvRows ⟨7, 123, ["a"], [("x", [("a", (1 : ℚ) / 2)])]⟩ = some rows ∧
        counters ⟨7, 123, ["a"], [("x", [("a", (1 : ℚ) / 2)])]⟩ false none
          = some (CountersResp.payload rows (natRepr 7) (natRepr 123))) ∧
      (∀ (st : PollerState) (store : Option Snapshot) (headers : RespHeaders)
          (body : List (List String)),
        (runCycle st store (FetchOutcome.resp 304 headers body)).store = store
        ∧ (runCycle st store (FetchOutcome.resp 304 headers body)).cls
            = CycleClass.unchanged)) :=
  ⟨rfl, counters_conditional_read ⟨7, 123, ["a"], [("x", [("a", (1 : ℚ) / 2)])]⟩ "6" rfl⟩

theorem enumFrom_snd_mem {α : Type} {s : ℕ} {l : List α} {p : ℕ × α}
    (h : p ∈ enumFrom s l) : p.2 ∈ l := by
  induction l generalizing s with
  | nil => simp [enumFrom] at h
  | cons a t ih =>
    simp only [enumFrom, List.mem_cons] at h
    rcases h with rfl | h
    · exact List.mem_cons_self a t
    · exact List.mem_cons_of_mem a (ih h)

theorem filter_enumFrom_nodup {l : List String} (hnd : l.Nodup)
    {idx : ℕ} {name : String} (hidx : l.get? idx = some name) (s : ℕ) :
    (enumFrom s l).filter (fun p => decide (p.2 = name)) = [(s + idx, name)] := by
  induction l generalizing s idx with
  | nil => simp at hidx
  | cons a t ih =>
    rcases List.nodup_cons.1 hnd with ⟨hnotin, hndt⟩
    cases idx with
    | zero =>
      have ha : a = name := by simpa using hidx
      subst ha
      rw [show enumFrom s (a :: t) = (s, a) :: enumFrom (s + 1) t from rfl,
        List.filter_cons, if_pos (by simp)]
      have hrest : (enumFrom (s + 1) t).filter (fun p => decide (p.2 = a)) = [] := by
        rw [List.filter_eq_nil_iff]
        intro p hp
        simp only [decide_eq_true_eq]
        intro hpa
        exact hnotin (hpa ▸ enumFrom_snd_mem hp)
      rw [hrest, Nat.add_zero]
    | succ j =>
      have hj : t.get? j = some name := hidx
      have hne : a ≠ name := by
        intro hcontra
        exact hnotin (hcontra ▸ List.get?_mem hj)
      rw [show enumFrom s (a :: t) = (s, a) :: enumFrom (s + 1) t from rfl,
        List.filter_cons, if_neg (by simpa using hne), ih hndt hj (s + 1),
        show s + 1 + j = s + (j + 1) from by omega]

/-- Lookup of a field name in the `vals` dict built for one row: the cell
at the field's position, with missing / unparsable cells already
defaulted to 0. -/
theorem dictGet_parseVals {fields : List String} (hnd : fields.Nodup) {idx : ℕ}
    {name : String} (hidx : fields.get? idx = some name) (row : List String) :
    dictGet (parseVals fields row) name = some (cellVal row idx) := by
  rw [parseVals, dictGet_dictOf, filter_enumFrom_nodup hnd hidx 0]
  simp

/-- C8: for every payload whose header row parses, the parse as a whole
succeeds; blank rows are skipped without error (parsing is unchanged by
removing them); every non-blank row is kept (its id is present in the
parsed data); each field position of a row parses to the cell's numeric
value with missing cells (row shorter than the header) and unparsable
cells defaulted to 0.0. -/
theorem parse_csv_malformed_cells (fields : List String) (rest : List (List String))
    (headers : RespHeaders) (hts : (parseIntStr (headers.snapTs.getD "0")).isSome) :
    (∃ snap, parse_csv (("switch_id" :: fields) :: rest) headers = Except.ok snap) ∧
    (parse_csv (("switch_id" :: fields) :: rest) headers
      = parse_csv (("switch_id" :: fields) :: rest.filter (fun r => !r.isEmpty)) headers) ∧
    (∀ snap, parse_csv (("switch_id" :: fields) :: rest) headers = Except.ok snap →
      ∀ r ∈ rest, r ≠ [] → (dictGet snap.data (r.headD "")).isSome) ∧
    (∀ (row : List String) idx name, fields.Nodup → fields.get? idx = some name →
      dictGet (parseVals fields row) name = some (cellVal row idx)) ∧
    (∀ (row : List String) idx, (row.get? (1 + idx) = none ∨
        (∃ c, row.get? (1 + idx) = some c ∧ parseFloatQ c = none)) →
      cellVal row idx = 0) := by
  obtain ⟨ts, hts2⟩ := Option.isSome_iff_exists.1 hts
  have hok : parse_csv (("switch_id" :: fields) :: rest) headers
      = Except.ok ⟨⟨if headers.etag.getD "" = "" then "0" else headers.etag.getD "",
          ts, fields⟩, buildData fields rest []⟩ := by
    simp [parse_csv, hts2]
  refine ⟨⟨_, hok⟩, ?_, ?_, ?_, ?_⟩
  · have hbd : buildData fields (rest.filter (fun r => !r.isEmpty)) []
        = buildData fields rest [] := by
      rw [buildData_eq_dictOf, buildData_eq_dictOf, List.filter_filter]
      have hfun : (fun (a : List String) => !a.isEmpty && !a.isEmpty)
          = fun (r : List String) => !r.isEmpty := by
        funext r
        exact Bool.and_self _
      rw [hfun]
    simp [parse_csv, hts2, hbd]
  · intro snap hsnap r hr hrne
    have hd : snap.data = buildData fields rest [] := by
      rw [hok] at hsnap
      cases hsnap
      rfl
    rw [hd, buildData_eq_dictOf, dictGet_isSome_dictOf]
    refine Or.inl ⟨r, List.mem_filter.2 ⟨hr, ?_⟩, rfl⟩
    cases r with
    | nil => exact absurd rfl hrne
    | cons a t => rfl
  · intro row idx name hnd hidx
    exact dictGet_parseVals hnd hidx row
  · intro row idx h
    rcases h with h | ⟨c, hc, hp⟩
    · unfold cellVal
      rw [h]
    · unfold cellVal
      rw [hc]
      simp [hp]

/-- Witness for `parse_csv_malformed_cells`: a two-field header, one row
with a missing second cell and the unparsable first cell `NaNtext`, and
one blank row. -/
theorem parse_csv_malformed_cells_witness :
    (parseIntStr ((RespHeaders.mk none none).snapTs.getD "0")).isSome
    ∧ ((∃ snap, parse_csv [["switch_id", "f1", "f2"], ["x", "NaNtext"], []] ⟨none, none⟩
          = Except.ok snap) ∧
      (parse_csv [["switch_id", "f1", "f2"], ["x", "NaNtext"], []] ⟨none, none⟩
        = parse_csv (("switch_id" :: ["f1", "f2"])
            :: [["x", "NaNtext"], []].filter (fun r => !r.isEmpty)) ⟨none, none⟩) ∧
      (∀ snap, parse_csv [["switch_id", "f1", "f2"], ["x", "NaNtext"], []] ⟨none, none⟩
          = Except.ok snap →
        ∀ r ∈ [["x", "NaNtext"], ([] : List String)], r ≠ [] →
          (dictGet snap.data (r.headD "")).isSome) ∧
      (∀ (row : List String) idx name, (["f1", "f2"] : List String).Nodup →
        (["f1", "f2"] : List String).get? idx = some name →
        dictGet (parseVals ["f1", "f2"] row) name = some (cellVal row idx)) ∧
      (∀ (row : List String) idx, (row.get? (1 + idx) = none ∨
          (∃ c, row.get? (1 + idx) = some c ∧ parseFloatQ c = none)) →
        cellVal row idx = 0))
    ∧ parseFloatQ "NaNtext" = none :=
  ⟨rfl, parse_csv_malformed_cells ["f1", "f2"] [["x", "NaNtext"], []] ⟨none, none⟩ rfl, rfl⟩

theorem round2_nonneg {x : ℚ} (h : 0 ≤ x) : 0 ≤ round2 x := by
  have h0 := le_round2 (l := 0) (x := x) (by exact_mod_cast h)
  exact_mod_cast h0

theorem one_le_round2 {x : ℚ} (h : 1 ≤ x) : 1 ≤ round2 x := by
  have h0 := le_round2 (l := 1) (x := x) (by exact_mod_cast h)
  exact_mod_cast h0

theorem le_uniformQ {a b u : ℚ} (hab : a ≤ b) (h0 : 0 ≤ u) : a ≤ uniformQ a b u := by
  unfold uniformQ
  nlinarith

theorem uniformQ_le {a b u : ℚ} (hab : a ≤ b) (h1 : u < 1) : uniformQ a b u ≤ b := by
  unfold uniformQ
  nlinarith

/-- The eight lookups into the row built by `genRow`, by field name. -/
theorem genRow_get (d : EntityDraws) :
    dictGet (genRow d) "bandwidth_gbps" = some (round2 (max 0 d.gBw)) ∧
    dictGet (genRow d) "latency_us" = some (round2
      (if d.uLatSpike < 3 / 100 then uniformQ 50 150 d.uLat else max 1 d.gLat)) ∧
    dictGet (genRow d) "packet_errors" = some
      (((if d.uPktBurst < 1 / 100 then d.kPktBurst else d.kPkt : ℕ)) : ℚ) ∧
    dictGet (genRow d) "cpu_util_pct" = some (round2
      (if d.uCpuSpike < 5 / 100 then uniformQ 80 100 d.uCpu else clip d.gCpu 0 100)) ∧
    dictGet (genRow d) "mem_util_pct" = some (round2 (clip d.gMem 0 100)) ∧
    dictGet (genRow d) "buffer_occupancy_pct" = some (round2
      (if d.uBufSpike < 8 / 100 then uniformQ 70 100 d.uBuf else clip d.gBuf 0 100)) ∧
    dictGet (genRow d) "egress_drops_per_s" = some (round2
      (if d.uDropBurst < 2 / 100 then uniformQ 100 1000 d.uDrop else (d.kDrop : ℚ))) ∧
    dictGet (genRow d) "temperature_c" = some (round2 (clip (d.gTemp + 6 / 100 *
      (if d.uCpuSpike < 5 / 100 then uniformQ 80 100 d.uCpu else clip d.gCpu 0 100)) 30 90)) := by
  refine ⟨?_, ?_, ?_, ?_, ?_, ?_, ?_, ?_⟩ <;> rfl

/-- C4: for every entity count, previous version and random outcome, each
metric value of every generated row lies in its declared clip range
(bandwidth ≥ 0, latency ≥ 1, packet_errors ≥ 0, cpu/mem/buffer in
[0, 100], egress_drops ≥ 0, temperature in [30, 90]), and the snapshot's
version is the previous version plus one. -/
theorem generate_snapshot_ranges (n prev ts : ℕ) (oracle : ℕ → EntityDraws)
    (hv : ∀ i < n, (oracle i).Valid) :
    (generate_snapshot n prev ts oracle).version = prev + 1 ∧
    ∀ r ∈ (generate_snapshot n prev ts oracle).rows,
      (∃ q, dictGet r.2 "bandwidth_gbps" = some q ∧ 0 ≤ q) ∧
      (∃ q, dictGet r.2 "latency_us" = some q ∧ 1 ≤ q) ∧
      (∃ q, dictGet r.2 "packet_errors" = some q ∧ 0 ≤ q) ∧
      (∃ q, dictGet r.2 "cpu_util_pct" = some q ∧ 0 ≤ q ∧ q ≤ 100) ∧
      (∃ q, dictGet r.2 "mem_util_pct" = some q ∧ 0 ≤ q ∧ q ≤ 100) ∧
      (∃ q, dictGet r.2 "buffer_occupancy_pct" = some q ∧ 0 ≤ q ∧ q ≤ 100) ∧
      (∃ q, dictGet r.2 "egress_drops_per_s" = some q ∧ 0 ≤ q) ∧
      (∃ q, dictGet r.2 "temperature_c" = some q ∧ 30 ≤ q ∧ q ≤ 90) := by
  refine ⟨rfl, ?_⟩
  intro r hr
  simp only [generate_snapshot, List.mem_map, List.mem_range] at hr
  obtain ⟨i, hi, rfl⟩ := hr
  obtain ⟨⟨hul0, hul1⟩, ⟨huc0, huc1⟩, ⟨hub0, hub1⟩, ⟨hud0, hud1⟩, hk5, hk30⟩ := hv i hi
  obtain ⟨hbw, hlat, hpkt, hcpu, hmem, hbuf, hdrop, htemp⟩ := genRow_get (oracle i)
  have hcpu_bounds :
      0 ≤ (if (oracle i).uCpuSpike < 5 / 100 then uniformQ 80 100 (oracle i).uCpu
            else clip (oracle i).gCpu 0 100)
      ∧ (if (oracle i).uCpuSpike < 5 / 100 then uniformQ 80 100 (oracle i).uCpu
            else clip (oracle i).gCpu 0 100) ≤ 100 := by
    by_cases hs : (oracle i).uCpuSpike < 5 / 100
    · rw [if_pos hs]
      constructor
      · linarith [le_uniformQ (show (80 : ℚ) ≤ 100 by norm_num) huc0]
      · exact uniformQ_le (by norm_num) huc1
    · rw [if_neg hs]
      exact ⟨le_clip _ _ _, clip_le (by norm_num)⟩
  refine ⟨⟨_, hbw, ?_⟩, ⟨_, hlat, ?_⟩, ⟨_, hpkt, ?_⟩, ⟨_, hcpu, ?_, ?_⟩,
    ⟨_, hmem, ?_, ?_⟩, ⟨_, hbuf, ?_, ?_⟩, ⟨_, hdrop, ?_⟩, ⟨_, htemp, ?_, ?_⟩⟩
  · exact round2_nonneg (le_max_left _ _)
  · by_cases hs : (oracle i).uLatSpike < 3 / 100
    · rw [if_pos hs]
      apply one_le_round2
      linarith [le_uniformQ (show (50 : ℚ) ≤ 150 by norm_num) hul0]
    · rw [if_neg hs]
      exact one_le_round2 (le_max_left _ _)
  · positivity
  · exact round2_nonneg hcpu_bounds.1
  · exact_mod_cast round2_le (u := 100) (by exact_mod_cast hcpu_bounds.2)
  · exact round2_nonneg (le_clip _ _ _)
  · exact_mod_cast round2_le (u := 100) (by exact_mod_cast clip_le (by norm_num))
  · by_cases hs : (oracle i).uBufSpike < 8 / 100
    · rw [if_pos hs]
      apply round2_nonneg
      linarith [le_uniformQ (show (70 : ℚ) ≤ 100 by norm_num) hub0]
    · rw [if_neg hs]
      exact round2_nonneg (le_clip _ _ _)
  · by_cases hs : (oracle i).uBufSpike < 8 / 100
    · rw [if_pos hs]
      exact_mod_cast round2_le (u := 100) (by exact_mod_cast uniformQ_le (by norm_num) hub1)
    · rw [if_neg hs]
      exact_mod_cast round2_le (u := 100) (by exact_mod_cast clip_le (by norm_num))
  · by_cases hs : (oracle i).uDropBurst < 2 / 100
    · rw [if_pos hs]
      apply round2_nonneg
      linarith [le_uniformQ (show (100 : ℚ) ≤ 1000 by norm_num) hud0]
    · rw [if_neg hs]
      exact round2_nonneg (by positivity)
  · exact_mod_cast le_round2 (l := 30) (by exact_mod_cast le_clip _ _ _)
  · exact_mod_cast round2_le (u := 90) (by exact_mod_cast clip_le (by norm_num))

/-- Witness for `generate_snapshot_ranges`: one switch, all-zero draws
(kPktBurst 5, the minimum of randint(5, 30)). -/
theorem generate_snapshot_ranges_witness :
    (∀ i < 1, ((fun _ : ℕ => (⟨0, 0, 0, 0, 0, 5, 0, 0, 0, 0, 0, 0, 0, 0, 0, 0, 0, 0⟩ :
        EntityDraws)) i).Valid)
    ∧ ((generate_snapshot 1 0 0
          (fun _ => ⟨0, 0, 0, 0, 0, 5, 0, 0, 0, 0, 0, 0, 0, 0, 0, 0, 0, 0⟩)).version = 0 + 1 ∧
      ∀ r ∈ (generate_snapshot 1 0 0
          (fun _ => ⟨0, 0, 0, 0, 0, 5, 0, 0, 0, 0, 0, 0, 0, 0, 0, 0, 0, 0⟩)).rows,
        (∃ q, dictGet r.2 "bandwidth_gbps" = some q ∧ 0 ≤ q) ∧
        (∃ q, dictGet r.2 "latency_us" = some q ∧ 1 ≤ q) ∧
        (∃ q, dictGet r.2 "packet_errors" = some q ∧ 0 ≤ q) ∧
        (∃ q, dictGet r.2 "cpu_util_pct" = some q ∧ 0 ≤ q ∧ q ≤ 100) ∧
        (∃ q, dictGet r.2 "mem_util_pct" = some q ∧ 0 ≤ q ∧ q ≤ 100) ∧
        (∃ q, dictGet r.2 "buffer_occupancy_pct" = some q ∧ 0 ≤ q ∧ q ≤ 100) ∧
        (∃ q, dictGet r.2 "egress_drops_per_s" = some q ∧ 0 ≤ q) ∧
        (∃ q, dictGet r.2 "temperature_c" = some q ∧ 30 ≤ q ∧ q ≤ 90)) := by
  have hv : ∀ i < 1, ((fun _ : ℕ => (⟨0, 0, 0, 0, 0, 5, 0, 0, 0, 0, 0, 0, 0, 0, 0, 0, 0, 0⟩ :
      EntityDraws)) i).Valid := by
    intro i _
    refine ⟨⟨le_refl 0, by norm_num⟩, ⟨le_refl 0, by norm_num⟩, ⟨le_refl 0, by norm_num⟩,
      ⟨le_refl 0, by norm_num⟩, le_refl 5, by norm_num⟩
  exact ⟨hv, generate_snapshot_ranges 1 0 0 _ hv⟩

theorem dictGet_mem {α : Type} {d : List (String × α)} {k : String} {v : α}
    (h : dictGet d k = some v) : (k, v) ∈ d := by
  induction d with
  | nil => simp [dictGet] at h
  | cons p t ih =>
    obtain ⟨k0, v0⟩ := p
    by_cases hk : k0 = k
    · subst hk
      rw [dictGet, if_pos rfl, Option.some.injEq] at h
      exact h ▸ List.mem_cons_self _ _
    · rw [dictGet, if_neg hk] at h
      exact List.mem_cons_of_mem _ (ih h)

theorem round2_natCast (k : ℕ) : round2 ((k : ℚ)) = (k : ℚ) := by
  have h : (100 : ℚ) * (k : ℚ) = (((100 * k : ℕ) : ℤ) : ℚ) := by push_cast; ring
  rw [round2, h, round_intCast]
  push_cast
  ring

/-- C6 counterexample: with the 2% egress burst triggered and the unit
draw 1/1800, `egress_drops_per_s` is stored as 100.5 — `round(uniform
value, 2)`, not a whole number — so the claim that egress_drops is always
stored as a whole number fails at this concrete random outcome. -/
theorem egress_drops_burst_not_whole :
    (∃ r ∈ (generate_snapshot 1 0 0 (fun _ =>
        (⟨0, 0, 0, 0, 0, 5, 0, 0, 0, 0, 0, 0, 0, 0, 0, 1 / 1800, 0, 0⟩ : EntityDraws))).rows,
      dictGet r.2 "egress_drops_per_s" = some (201 / 2))
    ∧ ¬ IsWhole ((201 : ℚ) / 2) := by
  constructor
  · refine ⟨(fmtId 0, genRow ⟨0, 0, 0, 0, 0, 5, 0, 0, 0, 0, 0, 0, 0, 0, 0, 1 / 1800, 0, 0⟩),
      by simp [generate_snapshot], ?_⟩
    have h := (genRow_get ⟨0, 0, 0, 0, 0, 5, 0, 0, 0, 0, 0, 0, 0, 0, 0, 1 / 1800, 0, 0⟩).2.2.2.2.2.2.1
    rw [h]
    have hu : uniformQ 100 1000 (1 / 1800) = ((10050 : ℤ) : ℚ) / 100 := by
      rw [uniformQ]
      norm_num
    rw [if_pos (by norm_num), hu, round2_of_centi]
    norm_num
  · rintro ⟨m, hm⟩
    have h2 : (m : ℚ) * 2 = 201 := by
      rw [← hm]
      norm_num
    have h3 : m * 2 = 201 := by exact_mod_cast h2
    omega

/-- C6 (amended): in every generated row, `packet_errors` is stored as a
whole number; `egress_drops_per_s` is stored as a whole number whenever
the 2% burst does not trigger (under the burst it is the uniform draw
rounded to 2 decimal places); and every stored metric value is an exact
multiple of 1/100, i.e. rounded to 2 decimal places. -/
theorem generate_snapshot_value_precision (n prev ts : ℕ) (oracle : ℕ → EntityDraws) :
    ∀ r ∈ (generate_snapshot n prev ts oracle).rows, ∃ i, i < n ∧
      r = (fmtId i, genRow (oracle i)) ∧
      (∃ q, dictGet r.2 "packet_errors" = some q ∧ IsWhole q) ∧
      (¬ (oracle i).uDropBurst < 2 / 100 →
        ∃ q, dictGet r.2 "egress_drops_per_s" = some q ∧ IsWhole q) ∧
      (∀ k q, dictGet r.2 k = some q → IsCenti q) := by
  intro r hr
  simp only [generate_snapshot, List.mem_map, List.mem_range] at hr
  obtain ⟨i, hi, rfl⟩ := hr
  refine ⟨i, hi, rfl, ?_, ?_, ?_⟩
  · exact ⟨_, (genRow_get _).2.2.1, isWhole_natCast _⟩
  · intro hnb
    refine ⟨_, (genRow_get _).2.2.2.2.2.2.1, ?_⟩
    rw [if_neg hnb, round2_natCast]
    exact isWhole_natCast _
  · intro k q hkq
    have hmem := dictGet_mem hkq
    simp only [genRow, List.mem_cons, List.not_mem_nil, or_false, Prod.mk.injEq] at hmem
    rcases hmem with ⟨hk, rfl⟩ | ⟨hk, rfl⟩ | ⟨hk, rfl⟩ | ⟨hk, rfl⟩ | ⟨hk, rfl⟩ |
      ⟨hk, rfl⟩ | ⟨hk, rfl⟩ | ⟨hk, rfl⟩ <;>
      first
        | exact isCenti_round2 _
        | exact isCenti_natCast _

/-- Witness for `generate_snapshot_value_precision`: one switch whose
burst draw 1 does not trigger the 2% egress burst. -/
theorem generate_snapshot_value_precision_witness :
    ((fmtId 0, genRow ⟨0, 0, 0, 0, 0, 5, 0, 0, 0, 0, 0, 0, 0, 0, 1, 0, 0, 0⟩)
        ∈ (generate_snapshot 1 0 0 (fun _ =>
            (⟨0, 0, 0, 0, 0, 5, 0, 0, 0, 0, 0, 0, 0, 0, 1, 0, 0, 0⟩ : EntityDraws))).rows)
    ∧ (∃ i, i < 1 ∧
        (fmtId 0, genRow (⟨0, 0, 0, 0, 0, 5, 0, 0, 0, 0, 0, 0, 0, 0, 1, 0, 0, 0⟩ : EntityDraws))
          = (fmtId i, genRow ((fun _ =>
              (⟨0, 0, 0, 0, 0, 5, 0, 0, 0, 0, 0, 0, 0, 0, 1, 0, 0, 0⟩ : EntityDraws)) i)) ∧
        (∃ q, dictGet (genRow (⟨0, 0, 0, 0, 0, 5, 0, 0, 0, 0, 0, 0, 0, 0, 1, 0, 0, 0⟩ :
            EntityDraws)) "packet_errors" = some q ∧ IsWhole q) ∧
        (¬ ((fun _ => (⟨0, 0, 0, 0, 0, 5, 0, 0, 0, 0, 0, 0, 0, 0, 1, 0, 0, 0⟩ :
              EntityDraws)) i).uDropBurst < 2 / 100 →
          ∃ q, dictGet (genRow (⟨0, 0, 0, 0, 0, 5, 0, 0, 0, 0, 0, 0, 0, 0, 1, 0, 0, 0⟩ :
              EntityDraws)) "egress_drops_per_s" = some q ∧ IsWhole q) ∧
        (∀ k q, dictGet (genRow (⟨0, 0, 0, 0, 0, 5, 0, 0, 0, 0, 0, 0, 0, 0, 1, 0, 0, 0⟩ :
            EntityDraws)) k = some q → IsCenti q)) := by
  have hmem : (fmtId 0, genRow ⟨0, 0, 0, 0, 0, 5, 0, 0, 0, 0, 0, 0, 0, 0, 1, 0, 0, 0⟩)
      ∈ (generate_snapshot 1 0 0 (fun _ =>
          (⟨0, 0, 0, 0, 0, 5, 0, 0, 0, 0, 0, 0, 0, 0, 1, 0, 0, 0⟩ : EntityDraws))).rows := by
    simp [generate_snapshot]
  have h := generate_snapshot_value_precision 1 0 0
    (fun _ => ⟨0, 0, 0, 0, 0, 5, 0, 0, 0, 0, 0, 0, 0, 0, 1, 0, 0, 0⟩) _ hmem
  exact ⟨hmem, h⟩

/-- Zero-padding to width 3: for `n < 1000` the padded digits of
`f"{n:03d}"` are exactly the three base-10 digits of `n`. -/
theorem padded_natChars_eq {n : ℕ} (h : n < 1000) :
    List.replicate (3 - (natChars n).length) '0' ++ natChars n
      = [Nat.digitChar (n / 100), Nat.digitChar (n / 10 % 10), Nat.digitChar (n % 10)] := by
  by_cases h10 : n < 10
  · rw [natChars_lt h10, Nat.div_eq_of_lt (by omega : n < 100),
      show n / 10 % 10 = 0 from by omega, Nat.mod_eq_of_lt h10]
    rfl
  · by_cases h100 : n < 100
    · rw [natChars_ge h10, natChars_lt (show n / 10 < 10 from by omega),
        Nat.div_eq_of_lt h100, Nat.mod_eq_of_lt (show n / 10 < 10 from by omega)]
      rfl
    · rw [natChars_ge h10, natChars_ge (show ¬ n / 10 < 10 from by omega),
        natChars_lt (show n / 10 / 10 < 10 from by omega),
        show n / 10 / 10 = n / 100 from by omega,
        show n / 10 % 10 = n / 10 % 10 from rfl]
      rfl

theorem digitChar_mono : ∀ a < 10, ∀ b < 10, a < b →
    Nat.digitChar a < Nat.digitChar b := by decide

/-- Zero-padded ids preserve numeric order lexically as long as the ids
stay within the pad width (three digits, i.e. fewer than 1000 entities). -/
theorem fmtId_lt {i j : ℕ} (hij : i < j) (hj : j < 1000) : fmtId i < fmtId j := by
  have hi : i < 1000 := lt_trans hij hj
  rw [fmtId, fmtId, String.lt_iff_toList_lt]
  show List.Lex (· < ·)
    ('s' :: 'w' :: '-' :: (List.replicate (3 - (natChars i).length) '0' ++ natChars i))
    ('s' :: 'w' :: '-' :: (List.replicate (3 - (natChars j).length) '0' ++ natChars j))
  rw [padded_natChars_eq hi, padded_natChars_eq hj]
  refine List.Lex.cons (List.Lex.cons (List.Lex.cons ?_))
  have htri : i / 100 < j / 100
      ∨ (i / 100 = j / 100 ∧ (i / 10 % 10 < j / 10 % 10
      ∨ (i / 10 % 10 = j / 10 % 10 ∧ i % 10 < j % 10))) := by omega
  rcases htri with h | ⟨he2, h | ⟨he1, h⟩⟩
  · exact List.Lex.rel (digitChar_mono _ (by omega) _ (by omega) h)
  · rw [he2]
    exact List.Lex.cons (List.Lex.rel (digitChar_mono _ (by omega) _ (by omega) h))
  · rw [he2, he1]
    exact List.Lex.cons (List.Lex.cons (List.Lex.rel
      (digitChar_mono _ (by omega) _ (by omega) h)))

theorem fmtId_zero : fmtId 0 = "sw-000" := by
  rw [fmtId, padded_natChars_eq (by norm_num)]
  rfl

theorem fmtId_one : fmtId 1 = "sw-001" := by
  rw [fmtId, padded_natChars_eq (by norm_num)]
  rfl

/-- Serializing any generated row succeeds and yields one cell per field. -/
theorem cellsFor_genRow (d : EntityDraws) :
    ∃ cells, cellsFor fieldNames (genRow d) = some cells ∧ cells.length = 8 :=
  ⟨_, rfl, rfl⟩

/-- C7 (amended): generating with `entity_count = 2` and serializing
yields the header `switch_id` followed by the 8 metric field names in
order, and exactly 2 data rows with ids `sw-000` and `sw-001`; lexical
and numeric id order coincide for ids below the pad width (1000). -/
theorem to_csv_two_switches (prev ts : ℕ) (oracle : ℕ → EntityDraws) :
    (∃ r0 r1, toCsvRows (generate_snapshot 2 prev ts oracle)
        = some [("switch_id" :: fieldNames), "sw-000" :: r0, "sw-001" :: r1]
      ∧ r0.length = 8 ∧ r1.length = 8)
    ∧ fieldNames.length = 8
    ∧ (∀ i j, i < j → j < 1000 → fmtId i < fmtId j) := by
  refine ⟨?_, rfl, fun i j hij hj => fmtId_lt hij hj⟩
  obtain ⟨c0, hc0, hl0⟩ := cellsFor_genRow (oracle 0)
  obtain ⟨c1, hc1, hl1⟩ := cellsFor_genRow (oracle 1)
  refine ⟨c0, c1, ?_, hl0, hl1⟩
  have hrows : (generate_snapshot 2 prev ts oracle).rows
      = [(fmtId 0, genRow (oracle 0)), (fmtId 1, genRow (oracle 1))] := by
    simp [generate_snapshot, List.range_succ]
  have hflds : (generate_snapshot 2 prev ts oracle).fields = fieldNames := rfl
  rw [toCsvRows, hrows, hflds]
  simp [rowsToCsv, hc0, hc1, fmtId_zero, fmtId_one]

/-- C7 counterexample: the serialized header's first cell is
`"switch_id"`, not `"entity_id"`, and the first id is `"sw-000"`, not
`"entity-000"`; moreover with the real `sw-` scheme, lexical and numeric
order diverge once the pad width is exceeded: `fmtId 1000 < fmtId 999`
as strings although `999 < 1000`. -/
theorem to_csv_header_not_entity_id :
    (∃ rows, toCsvRows (generate_snapshot 2 0 0 (fun _ =>
        (⟨0, 0, 0, 0, 0, 5, 0, 0, 0, 0, 0, 0, 0, 0, 0, 0, 0, 0⟩ : EntityDraws)))
        = some rows
      ∧ rows.headD [] = "switch_id" :: fieldNames
      ∧ (rows.headD []).headD "" = "switch_id")
    ∧ "switch_id" ≠ "entity_id"
    ∧ fmtId 0 = "sw-000" ∧ "sw-000" ≠ "entity-000"
    ∧ (999 : ℕ) < 1000 ∧ fmtId 1000 < fmtId 999 := by
  have h1 : natChars 1 = [Nat.digitChar 1] := natChars_lt (by norm_num)
  have h10 : natChars 10 = [Nat.digitChar 1, Nat.digitChar 0] := by
    rw [natChars_ge (by norm_num)]
    norm_num [h1]
  have h100 : natChars 100 = [Nat.digitChar 1, Nat.digitChar 0, Nat.digitChar 0] := by
    rw [natChars_ge (by norm_num)]
    norm_num [h10]
  have h1000 : natChars 1000
      = [Nat.digitChar 1, Nat.digitChar 0, Nat.digitChar 0, Nat.digitChar 0] := by
    rw [natChars_ge (by norm_num)]
    norm_num [h100]
  refine ⟨?_, by decide, fmtId_zero, by decide, by norm_num, ?_⟩
  · obtain ⟨c0, hc0, hl0⟩ := cellsFor_genRow
      ⟨0, 0, 0, 0, 0, 5, 0, 0, 0, 0, 0, 0, 0, 0, 0, 0, 0, 0⟩
    have hrows : (generate_snapshot 2 0 0 (fun _ =>
        (⟨0, 0, 0, 0, 0, 5, 0, 0, 0, 0, 0, 0, 0, 0, 0, 0, 0, 0⟩ : EntityDraws))).rows
        = [(fmtId 0, genRow ⟨0, 0, 0, 0, 0, 5, 0, 0, 0, 0, 0, 0, 0, 0, 0, 0, 0, 0⟩),
           (fmtId 1, genRow ⟨0, 0, 0, 0, 0, 5, 0, 0, 0, 0, 0, 0, 0, 0, 0, 0, 0, 0⟩)] := by
      simp [generate_snapshot, List.range_succ]
    refine ⟨("switch_id" :: fieldNames) :: ("sw-000" :: c0) :: [("sw-001" :: c0)], ?_, rfl, rfl⟩
    rw [toCsvRows, hrows]
    simp [rowsToCsv, hc0, fmtId_zero, fmtId_one, generate_snapshot]
  · rw [fmtId, fmtId, h1000, padded_natChars_eq (by norm_num : (999 : ℕ) < 1000),
      String.lt_iff_toList_lt]
    norm_num
    exact List.Lex.cons (List.Lex.cons (List.Lex.cons (List.Lex.rel (by decide))))

/-- Witness for `to_csv_two_switches` at a concrete oracle, plus a
concrete instance of the id-order part at 3 < 7. -/
theorem to_csv_two_switches_witness :
    ((∃ r0 r1, toCsvRows (generate_snapshot 2 0 0 (fun _ =>
          (⟨0, 0, 0, 0, 0, 5, 0, 0, 0, 0, 0, 0, 0, 0, 0, 0, 0, 0⟩ : EntityDraws)))
          = some [("switch_id" :: fieldNames), "sw-000" :: r0, "sw-001" :: r1]
        ∧ r0.length = 8 ∧ r1.length = 8)
      ∧ fieldNames.length = 8
      ∧ (∀ i j, i < j → j < 1000 → fmtId i < fmtId j))
    ∧ (3 : ℕ) < 7 ∧ (7 : ℕ) < 1000 ∧ fmtId 3 < fmtId 7 := by
  have h := to_csv_two_switches 0 0
    (fun _ => ⟨0, 0, 0, 0, 0, 5, 0, 0, 0, 0, 0, 0, 0, 0, 0, 0, 0, 0⟩)
  exact ⟨h, by norm_num, by norm_num, h.2.2 3 7 (by norm_num) (by norm_num)⟩

theorem filter_key_nodup {α : Type} (key : α → String) {l : List α}
    (hnd : (l.map key).Nodup) {r : α} (hr : r ∈ l) :
    l.filter (fun a => decide (key a = key r)) = [r] := by
  induction l with
  | nil => simp at hr
  | cons a t ih =>
    rw [List.map_cons, List.nodup_cons] at hnd
    obtain ⟨hnotin, hndt⟩ := hnd
    rcases List.mem_cons.1 hr with rfl | hrt
    · rw [List.filter_cons, if_pos (by simp)]
      have ht : t.filter (fun x => decide (key x = key r)) = [] := by
        rw [List.filter_eq_nil_iff]
        intro b hb
        simp only [decide_eq_true_eq]
        intro hkb
        exact hnotin (hkb ▸ List.mem_map_of_mem key hb)
      rw [ht]
    · have hka : ¬ key a = key r := by
        intro hcontra
        exact hnotin (hcontra ▸ List.mem_map_of_mem key hrt)
      rw [List.filter_cons, if_neg (by simpa using hka), ih hndt hrt]

/-- With duplicate-free keys, the fold-built dict maps each item's key to
that item's value. -/
theorem dictGet_dictOf_eq {α β : Type} (key : α → String) (val : α → β) {l : List α}
    (hnd : (l.map key).Nodup) {r : α} (hr : r ∈ l) :
    dictGet (dictOf key val l []) (key r) = some (val r) := by
  rw [dictGet_dictOf, filter_key_nodup key hnd hr]
  rfl

theorem forall2_mem_left {α β : Type} {R : α → β → Prop} :
    ∀ {l₁ : List α} {l₂ : List β}, List.Forall₂ R l₁ l₂ →
      ∀ {a : α}, a ∈ l₁ → ∃ b ∈ l₂, R a b := by
  intro l₁ l₂ h
  induction h with
  | nil =>
    intro a ha
    simp at ha
  | cons hR hrest ih =>
    intro a ha
    rcases List.mem_cons.1 ha with rfl | hat
    · exact ⟨_, List.mem_cons_self _ _, hR⟩
    · obtain ⟨b, hb, hRb⟩ := ih hat
      exact ⟨b, List.mem_cons_of_mem _ hb, hRb⟩

/-- Serializing one complete row: one cell per field, each the rendered
text of the looked-up value. -/
theorem cellsFor_sound {fields : List String} {vals : List (String × ℚ)}
    (h : ∀ k ∈ fields, ∃ q, dictGet vals k = some q) :
    ∃ cells, cellsFor fields vals = some cells
      ∧ cells.length = fields.length
      ∧ ∀ idx k, fields.get? idx = some k →
          ∃ q, dictGet vals k = some q ∧ cells.get? idx = some (csvCell q) := by
  induction fields with
  | nil =>
    refine ⟨[], rfl, rfl, ?_⟩
    intro idx k hidx
    simp at hidx
  | cons f rest ih =>
    obtain ⟨q, hq⟩ := h f (List.mem_cons_self f rest)
    obtain ⟨cells, hcells, hlen, hpt⟩ := ih (fun k hk => h k (List.mem_cons_of_mem f hk))
    refine ⟨csvCell q :: cells, ?_, by simp [hlen], ?_⟩
    · simp [cellsFor, hq, hcells]
    · intro idx k hidx
      cases idx with
      | zero =>
        have hf : f = k := by simpa using hidx
        subst hf
        exact ⟨q, hq, by simp⟩
      | succ j =>
        obtain ⟨q', hq', hc⟩ := hpt j k (by simpa using hidx)
        exact ⟨q', hq', by simpa using hc⟩

/-- Serializing the complete rows of a snapshot: one data row per entity,
`id :: cells`, ids in order. -/
theorem rowsToCsv_sound {fields : List String} {rows : List (String × List (String × ℚ))}
    (h : ∀ r ∈ rows, ∀ k ∈ fields, ∃ q, dictGet r.2 k = some q) :
    ∃ dataRows, rowsToCsv fields rows = some dataRows
      ∧ dataRows.map (fun c => c.headD "") = rows.map Prod.fst
      ∧ (∀ c ∈ dataRows, c ≠ [])
      ∧ List.Forall₂ (fun (r : String × List (String × ℚ)) (c : List String) =>
          ∃ cells, c = r.1 :: cells ∧ cellsFor fields r.2 = some cells) rows dataRows := by
  induction rows with
  | nil => exact ⟨[], rfl, rfl, by simp, List.Forall₂.nil⟩
  | cons r rest ih =>
    obtain ⟨sw, vals⟩ := r
    obtain ⟨cells, hcells, hlen, hpt⟩ :=
      cellsFor_sound (fun k hk => h (sw, vals) (List.mem_cons_self _ _) k hk)
    obtain ⟨dataRows, hdr, hheads, hne, hfa⟩ :=
      ih (fun r' hr' => h r' (List.mem_cons_of_mem _ hr'))
    refine ⟨(sw :: cells) :: dataRows, ?_, ?_, ?_, ?_⟩
    · simp [rowsToCsv, hcells, hdr]
    · simp only [List.map_cons, List.headD_cons]
      exact congrArg (List.cons sw) hheads
    · intro c hc
      rcases List.mem_cons.1 hc with rfl | hct
      · simp
      · exact hne c hct
    · exact List.Forall₂.cons ⟨cells, rfl, hcells⟩ hfa

/-- C2: serializing a snapshot whose rows are complete (a numeric value
for every field) with `_to_csv` and parsing the result with
`Poller._parse_csv` under matching `ETag` / `X-Snapshot-Ts` headers
reproduces the `fields` list identically and in order, the same set of
entity ids, and, for every entity and field, the original value within
2-decimal-place rounding tolerance (in fact exactly). -/
theorem csv_roundtrip (s : ProdSnapshot)
    (hfnd : s.fields.Nodup)
    (hids : (dictKeys s.rows).Nodup)
    (hcomp : ∀ r ∈ s.rows, ∀ k ∈ s.fields, ∃ q, dictGet r.2 k = some q ∧ IsCenti q) :
    ∃ cells snap,
      toCsvRows s = some cells
      ∧ parse_csv cells ⟨some (natRepr s.version), some (natRepr s.ts)⟩ = Except.ok snap
      ∧ snap.meta.fields = s.fields
      ∧ (∀ id, (dictGet snap.data id).isSome ↔ (dictGet s.rows id).isSome)
      ∧ (∀ r ∈ s.rows, ∀ k ∈ s.fields, ∀ q, dictGet r.2 k = some q →
          ∃ q', (dictGet snap.data r.1).bind (fun vals => dictGet vals k) = some q'
            ∧ |q' - q| ≤ 1 / 100) := by
  obtain ⟨dataRows, hdr, hheads, hnb, hfa⟩ :=
    @rowsToCsv_sound s.fields s.rows
      (fun r hr k hk => (hcomp r hr k hk).imp (fun q hq => hq.1))
  have hparse : parse_csv (("switch_id" :: s.fields) :: dataRows)
      ⟨some (natRepr s.version), some (natRepr s.ts)⟩
      = Except.ok ⟨⟨if natRepr s.version = "" then "0" else natRepr s.version,
          ((s.ts : ℕ) : ℤ), s.fields⟩, buildData s.fields dataRows []⟩ := by
    simp [parse_csv, parseIntStr_natRepr]
  have hfilter : dataRows.filter (fun r => !r.isEmpty) = dataRows := by
    rw [List.filter_eq_self]
    intro c hc
    cases c with
    | nil => exact absurd rfl (hnb [] hc)
    | cons a t => rfl
  have hdata : buildData s.fields dataRows []
      = dictOf (fun c => c.headD "") (fun c => parseVals s.fields c) dataRows [] := by
    rw [buildData_eq_dictOf, hfilter]
  have hnodup2 : (dataRows.map (fun c => c.headD "")).Nodup := by
    rw [hheads]
    exact hids
  refine ⟨("switch_id" :: s.fields) :: dataRows, _, ?_, hparse, rfl, ?_, ?_⟩
  · rw [toCsvRows, hdr]
    rfl
  · intro id
    have h1 : (dictGet (buildData s.fields dataRows []) id).isSome
        ↔ (∃ c ∈ dataRows, c.headD "" = id)
          ∨ (dictGet ([] : List (String × List (String × ℚ))) id).isSome := by
      rw [hdata]
      exact dictGet_isSome_dictOf _ _ _ _ _
    have h2 : (dictGet s.rows id).isSome ↔ id ∈ dictKeys s.rows :=
      dictGet_isSome_iff_mem _ _
    show (dictGet (buildData s.fields dataRows []) id).isSome ↔ _
    rw [h1, h2]
    constructor
    · rintro (⟨c, hc, hck⟩ | habs)
      · rw [show dictKeys s.rows = s.rows.map Prod.fst from rfl, ← hheads]
        exact hck ▸ List.mem_map_of_mem _ hc
      · exact absurd habs (by
          rw [show dictGet ([] : List (String × List (String × ℚ))) id = none from rfl]
          simp)
    · intro hmem
      rw [show dictKeys s.rows = s.rows.map Prod.fst from rfl, ← hheads] at hmem
      obtain ⟨c, hc, hck⟩ := List.mem_map.1 hmem
      exact Or.inl ⟨c, hc, hck⟩
  · intro r hr k hk q hq
    obtain ⟨c, hcmem, cells, hceq, hcells⟩ := forall2_mem_left hfa hr
    have hkey : (fun c : List String => c.headD "") c = r.1 := by
      rw [hceq]
      rfl
    have hget : dictGet (buildData s.fields dataRows []) r.1
        = some (parseVals s.fields c) := by
      rw [hdata, ← hkey]
      exact dictGet_dictOf_eq _ _ hnodup2 hcmem
    obtain ⟨idx, hidx⟩ := List.get?_of_mem hk
    have hpv := dictGet_parseVals hfnd hidx c
    obtain ⟨cells', hcells', hlen', hpt'⟩ :=
      @cellsFor_sound s.fields r.2 (fun k' hk' => ((hcomp r hr k' hk').imp (fun q hq => hq.1)))
    have hcc : cells' = cells := by
      rw [hcells'] at hcells
      exact Option.some.inj hcells
    subst hcc
    obtain ⟨q0, hq0, hcell⟩ := hpt' idx k hidx
    have hq0q : q0 = q := by
      rw [hq] at hq0
      exact (Option.some.inj hq0).symm
    subst hq0q
    obtain ⟨q1, hq1, hcent⟩ := hcomp r hr k hk
    have hq1q : q1 = q0 := by
      rw [hq] at hq1
      exact (Option.some.inj hq1).symm
    have hg : (r.1 :: cells').get? (1 + idx) = some (csvCell q0) := by
      rw [Nat.add_comm, List.get?_cons_succ]
      exact hcell
    have hcv : cellVal c idx = q0 := by
      rw [hceq]
      unfold cellVal
      rw [hg]
      simp [parseFloatQ_csvCell (hq1q ▸ hcent)]
    refine ⟨q0, ?_, by norm_num⟩
    show (dictGet (buildData s.fields dataRows []) r.1).bind
      (fun vals => dictGet vals k) = some q0
    rw [hget]
    show dictGet (parseVals s.fields c) k = some q0
    rw [hpv, hcv]

/-- Witness for `csv_roundtrip`: a one-switch, one-field snapshot with
value 1/2 (= 0.50, an exact multiple of 1/100). -/
theorem csv_roundtrip_witness :
    ((["a"] : List String).Nodup
      ∧ (dictKeys ([("x", [("a", (1 : ℚ) / 2)])] :
          List (String × List (String × ℚ)))).Nodup
      ∧ (∀ r ∈ ([("x", [("a", (1 : ℚ) / 2)])] : List (String × List (String × ℚ))),
          ∀ k ∈ (["a"] : List String), ∃ q, dictGet r.2 k = some q ∧ IsCenti q))
    ∧ (∃ cells snap,
        toCsvRows ⟨1, 2, ["a"], [("x", [("a", (1 : ℚ) / 2)])]⟩ = some cells
        ∧ parse_csv cells ⟨some (natRepr 1), some (natRepr 2)⟩ = Except.ok snap
        ∧ snap.meta.fields = ["a"]
        ∧ (∀ id, (dictGet snap.data id).isSome
            ↔ (dictGet ([("x", [("a", (1 : ℚ) / 2)])] :
                List (String × List (String × ℚ))) id).isSome)
        ∧ (∀ r ∈ ([("x", [("a", (1 : ℚ) / 2)])] : List (String × List (String × ℚ))),
            ∀ k ∈ (["a"] : List String), ∀ q, dictGet r.2 k = some q →
            ∃ q', (dictGet snap.data r.1).bind (fun vals => dictGet vals k) = some q'
              ∧ |q' - q| ≤ 1 / 100)) := by
  have hcomp : ∀ r ∈ ([("x", [("a", (1 : ℚ) / 2)])] : List (String × List (String × ℚ))),
      ∀ k ∈ (["a"] : List String), ∃ q, dictGet r.2 k = some q ∧ IsCenti q := by
    intro r hr k hk
    rw [List.mem_singleton] at hr hk
    subst hr
    subst hk
    exact ⟨1 / 2, rfl, ⟨50, by norm_num⟩⟩
  have hfnd : (["a"] : List String).Nodup := by simp
  have hids : (dictKeys ([("x", [("a", (1 : ℚ) / 2)])] :
      List (String × List (String × ℚ)))).Nodup := by simp [dictKeys]
  exact ⟨⟨hfnd, hids, hcomp⟩,
    csv_roundtrip ⟨1, 2, ["a"], [("x", [("a", (1 : ℚ) / 2)])]⟩ hfnd hids hcomp⟩

end Fabric

